import Mathlib

/-!
Projection error metrics of `src/colmap/scene/projection.cc`.

Shallow embedding of the four operations of `projection.cc`
(`CalculateSquaredReprojectionError`, `CalculateAngularError`,
`CalculateNormalizedAngularError`, `HasPointPositiveDepth`), twice.

Exact arithmetic (namespace `Colmap`). Every C++ `double` is read as the real number
it denotes and no operation rounds, overflows or underflows.

* A `double` that is an input, or an intermediate value produced without a division,
  is a real number.
* The result of an operation that can leave the finite doubles (a division, whose
  divisor may vanish, and `std::acos`, whose argument may leave `[-1, 1]`) is a
  `Double`: a finite real or one of the IEEE-754 special values `+inf`, `-inf`, `NaN`.
* `M_PI` is `Real.pi`, `cos`/`sin`/`sqrt` are the real functions.
* Eigen's fixed-size vectors and matrices are structures of real components; the
  Eigen member functions used by the source (`dot`, `squaredNorm`, `norm`,
  `normalized`, `homogeneous`, `row`, `head<3>`, `block<3,4>`, `Identity`) are
  transcribed from the Eigen library.

Double arithmetic (namespace `Colmap.IEEE`). Every `double` is a `Binary64` and every
`+`, `-`, `*`, `/` and `sqrt` is rounded once, to nearest with ties to even, with
overflow to an infinity and gradual underflow, as IEEE-754 prescribes; sums are taken
from left to right and no operation is fused. The functions `sin`, `cos` and `acos` of
the C library are a parameter (`Libm`). The overloads that take a `Rigid3d` are not
repeated there: the arithmetic of `Rigid3d` lies outside `projection.cc`.

A statement that holds in exact arithmetic only is proved there, and an input on which
the double arithmetic departs from it is evaluated in `Colmap.IEEE`.
-/

noncomputable section

namespace Colmap

/-! ## Double-precision results -/

/-- A double-precision result in exact arithmetic: a finite real number or one of
the IEEE-754 special values. -/
inductive Double where
  | finite (value : ℝ)
  | posInf
  | negInf
  | nan

namespace Double

/-- IEEE-754 division `a / b` of two finite doubles. A non-zero divisor gives the
finite quotient. A zero divisor gives `+inf` or `-inf` with the sign of the dividend
(the zero divisors of `projection.cc` are `+0`: `1 + M_dot_m` is `+0` when it
vanishes), and `0 / 0` gives `NaN`. -/
def div (a b : ℝ) : Double :=
  if b = 0 then
    if 0 < a then posInf else if a < 0 then negInf else nan
  else finite (a / b)

/-- Continue a computation with a value that is next passed to `sin` and `cos`:
a finite value is used as it is; for `+inf`, `-inf` and `NaN` both `sin` and `cos`
return `NaN`, and `NaN` propagates through every later `*`, `+`, `-` and `/`,
so the whole result is `NaN`. -/
def bind (v : Double) (f : ℝ → Double) : Double :=
  match v with
  | finite x => f x
  | _ => nan

/-- The function `std::acos` on a finite double: the arc cosine on `[-1, 1]`, `NaN`
(a domain error) outside. -/
def acos (x : ℝ) : Double :=
  if -1 ≤ x ∧ x ≤ 1 then finite (Real.arccos x) else nan

/-- IEEE-754 comparison `a < b`: false as soon as one side is `NaN`. -/
def lt : Double → Double → Bool
  | finite a, finite b => decide (a < b)
  | finite _, posInf => true
  | negInf, finite _ => true
  | negInf, posInf => true
  | _, _ => false

/-- IEEE-754 comparison `a <= b`: false as soon as one side is `NaN`. -/
def le : Double → Double → Bool
  | finite a, finite b => decide (a ≤ b)
  | finite _, posInf => true
  | negInf, finite _ => true
  | negInf, posInf => true
  | posInf, posInf => true
  | negInf, negInf => true
  | _, _ => false

end Double

/-- The constant `std::numeric_limits<double>::epsilon()`, which is `2^-52`. -/
def epsilon : ℝ := 1 / 2 ^ 52

/-! ## Eigen vectors and matrices -/

/-- An `Eigen::Vector2d`. -/
@[ext]
structure Vector2d where
  x : ℝ
  y : ℝ

/-- An `Eigen::Vector3d`. -/
@[ext]
structure Vector3d where
  x : ℝ
  y : ℝ
  z : ℝ

/-- An `Eigen::Vector4d`. -/
@[ext]
structure Vector4d where
  x : ℝ
  y : ℝ
  z : ℝ
  w : ℝ

/-- An `Eigen::Matrix3d`, by rows. -/
@[ext]
structure Matrix3d where
  row0 : Vector3d
  row1 : Vector3d
  row2 : Vector3d

/-- An `Eigen::Matrix3x4d`, by rows (`row(i)` of the source). -/
@[ext]
structure Matrix3x4d where
  row0 : Vector4d
  row1 : Vector4d
  row2 : Vector4d

/-- An `Eigen::Matrix4d`, by rows. -/
@[ext]
structure Matrix4d where
  row0 : Vector4d
  row1 : Vector4d
  row2 : Vector4d
  row3 : Vector4d

namespace Vector2d

/-- Eigen `homogeneous()`: append the component `1`. -/
def homogeneous (v : Vector2d) : Vector3d := ⟨v.x, v.y, 1⟩

end Vector2d

namespace Vector3d

/-- Eigen `a.dot(b)`. -/
def dot (a b : Vector3d) : ℝ := a.x * b.x + a.y * b.y + a.z * b.z

/-- Eigen `squaredNorm()`. -/
def squaredNorm (v : Vector3d) : ℝ := v.x * v.x + v.y * v.y + v.z * v.z

/-- Eigen `norm()`: the square root of `squaredNorm()`. -/
def norm (v : Vector3d) : ℝ := Real.sqrt v.squaredNorm

/-- Eigen `normalized()` (Eigen 3.3 and later, `Dot.h`):
`z = n.squaredNorm(); if (z > 0) return n / sqrt(z); else return n;`
so the zero vector is returned unchanged and no division by zero occurs. Exact
arithmetic: the squared norm neither overflows nor underflows; in double arithmetic
the function is `IEEE.Vector3d.normalized`. -/
def normalized (v : Vector3d) : Vector3d :=
  let z := v.squaredNorm
  if 0 < z then ⟨v.x / Real.sqrt z, v.y / Real.sqrt z, v.z / Real.sqrt z⟩ else v

/-- Eigen `homogeneous()`: append the component `1`. -/
def homogeneous (v : Vector3d) : Vector4d := ⟨v.x, v.y, v.z, 1⟩

/-- Component-wise sum, Eigen `a + b`. -/
def add (a b : Vector3d) : Vector3d := ⟨a.x + b.x, a.y + b.y, a.z + b.z⟩

end Vector3d

namespace Vector4d

/-- Eigen `a.dot(b)`. -/
def dot (a b : Vector4d) : ℝ := a.x * b.x + a.y * b.y + a.z * b.z + a.w * b.w

/-- Eigen `head<3>()`: the first three components. -/
def head3 (v : Vector4d) : Vector3d := ⟨v.x, v.y, v.z⟩

end Vector4d

namespace Matrix3d

/-- Matrix-vector product of a 3x3 matrix. -/
def mulVec (m : Matrix3d) (v : Vector3d) : Vector3d :=
  ⟨m.row0.dot v, m.row1.dot v, m.row2.dot v⟩

/-- The 3x3 identity, Eigen `Matrix3d::Identity()`. -/
def Identity : Matrix3d := ⟨⟨1, 0, 0⟩, ⟨0, 1, 0⟩, ⟨0, 0, 1⟩⟩

end Matrix3d

namespace Matrix3x4d

/-- Matrix-vector product `cam_from_world * v` of a 3x4 matrix with a 4-vector. -/
def mulVec (m : Matrix3x4d) (v : Vector4d) : Vector3d :=
  ⟨m.row0.dot v, m.row1.dot v, m.row2.dot v⟩

end Matrix3x4d

namespace Matrix4d

/-- Eigen `Matrix4d::Identity()`. -/
def Identity : Matrix4d := ⟨⟨1, 0, 0, 0⟩, ⟨0, 1, 0, 0⟩, ⟨0, 0, 1, 0⟩, ⟨0, 0, 0, 1⟩⟩

/-- The assignment `m.block<3, 4>(0, 0) = b`: the first three rows are replaced by
the rows of `b`, the last row is kept. -/
def setBlock34 (m : Matrix4d) (b : Matrix3x4d) : Matrix4d :=
  ⟨b.row0, b.row1, b.row2, m.row3⟩

/-- Matrix-vector product of a 4x4 matrix. -/
def mulVec (m : Matrix4d) (v : Vector4d) : Vector4d :=
  ⟨m.row0.dot v, m.row1.dot v, m.row2.dot v, m.row3.dot v⟩

end Matrix4d

/-! ## Collaborators declared outside `projection.cc` -/

/-- Modelled from the spec: the type `Rigid3d` of `colmap/geometry/rigid3.h`, a
rotation and a translation, "applied to a point as `R·p + t`". The rotation is
held as its 3x3 matrix. -/
structure Rigid3d where
  rotation : Matrix3d
  translation : Vector3d

namespace Rigid3d

/-- Modelled from the spec: the product `cam_from_world * point3D` of
`colmap/geometry/rigid3.h`, the rigid transform applied to a point, `R·p + t`. -/
def apply (t : Rigid3d) (p : Vector3d) : Vector3d :=
  (t.rotation.mulVec p).add t.translation

/-- The dense 3x4 matrix `[R | t]` of a rigid transform. -/
def ToMatrix (t : Rigid3d) : Matrix3x4d :=
  ⟨⟨t.rotation.row0.x, t.rotation.row0.y, t.rotation.row0.z, t.translation.x⟩,
   ⟨t.rotation.row1.x, t.rotation.row1.y, t.rotation.row1.z, t.translation.y⟩,
   ⟨t.rotation.row2.x, t.rotation.row2.y, t.rotation.row2.z, t.translation.z⟩⟩

/-- The identity pose: identity rotation, zero translation. -/
def Identity : Rigid3d := ⟨Matrix3d.Identity, ⟨0, 0, 0⟩⟩

end Rigid3d

/-- Modelled from the spec: the class `Camera` of `colmap/scene/camera.h`, of which
`projection.cc` uses the principal point accessors and the pixel to camera-ray
conversion `CamFromImg`. -/
structure Camera where
  PrincipalPointX : ℝ
  PrincipalPointY : ℝ
  CamFromImg : Vector2d → Vector2d

/-! ## The functions of `projection.cc` -/

/-- The return expression `4* (1-M_dot_m)/(1+M_dot_m)` shared by both overloads of
`CalculateSquaredReprojectionError` (lines 61 and 99). -/
def SquaredErrorFromDot (M_dot_m : ℝ) : Double :=
  Double.div (4 * (1 - M_dot_m)) (1 + M_dot_m)

/-- The overload of `CalculateSquaredReprojectionError` taking a `Rigid3d`
(lines 37-64), in exact arithmetic. -/
def CalculateSquaredReprojectionError (point2D : Vector2d) (point3D : Vector3d)
    (cam_from_world : Rigid3d) (camera : Camera) : Double :=
  let point3D_in_cam := cam_from_world.apply point3D
  let c1 := camera.PrincipalPointX
  let c2 := camera.PrincipalPointY
  let pi := Real.pi
  let two : ℝ := 2
  (Double.div ((point2D.x - c1) * pi) c1).bind fun theta =>
  (Double.div ((point2D.y - c2) * pi) (two * c2)).bind fun phi =>
  let coords_3D : Vector3d :=
    ⟨Real.cos phi * Real.sin theta, Real.sin phi, Real.cos phi * Real.cos theta⟩
  let M_dot_m := coords_3D.dot point3D_in_cam.normalized
  SquaredErrorFromDot M_dot_m

/-- The overload of `CalculateSquaredReprojectionError` taking an
`Eigen::Matrix3x4d` (lines 66-100), in exact arithmetic; in double arithmetic the
function is `IEEE.CalculateSquaredReprojectionErrorMat`. -/
def CalculateSquaredReprojectionErrorMat (point2D : Vector2d) (point3D : Vector3d)
    (cam_from_world : Matrix3x4d) (camera : Camera) : Double :=
  let proj_z := cam_from_world.row2.dot point3D.homogeneous
  let proj_x := cam_from_world.row0.dot point3D.homogeneous
  let proj_y := cam_from_world.row1.dot point3D.homogeneous
  let coords_3D : Vector3d := ⟨proj_x, proj_y, proj_z⟩
  let coords_3D := coords_3D.normalized
  let c1 := camera.PrincipalPointX
  let c2 := camera.PrincipalPointY
  let pi := Real.pi
  let two : ℝ := 2
  (Double.div ((point2D.x - c1) * pi) c1).bind fun theta =>
  (Double.div ((point2D.y - c2) * pi) (two * c2)).bind fun phi =>
  let coords_3D_1 : Vector3d :=
    ⟨Real.cos phi * Real.sin theta, Real.sin phi, Real.cos phi * Real.cos theta⟩
  let M_dot_m := coords_3D.dot coords_3D_1
  SquaredErrorFromDot M_dot_m

/-- The overload of `CalculateNormalizedAngularError` taking a `Rigid3d`
(lines 118-124), in exact arithmetic. -/
def CalculateNormalizedAngularError (point2D : Vector2d) (point3D : Vector3d)
    (cam_from_world : Rigid3d) : Double :=
  let ray1 := point2D.homogeneous
  let ray2 := cam_from_world.apply point3D
  Double.acos (ray1.normalized.dot ray2.normalized)

/-- The overload of `CalculateNormalizedAngularError` taking an
`Eigen::Matrix3x4d` (lines 126-133), in exact arithmetic; in double arithmetic the
function is `IEEE.CalculateNormalizedAngularErrorMat`. -/
def CalculateNormalizedAngularErrorMat (point2D : Vector2d) (point3D : Vector3d)
    (cam_from_world : Matrix3x4d) : Double :=
  let ray1 := point2D.homogeneous
  let ray2 := cam_from_world.mulVec point3D.homogeneous
  Double.acos (ray1.normalized.dot ray2.normalized)

/-- The overload of `CalculateAngularError` taking a `Rigid3d` (lines 102-108). -/
def CalculateAngularError (point2D : Vector2d) (point3D : Vector3d)
    (cam_from_world : Rigid3d) (camera : Camera) : Double :=
  CalculateNormalizedAngularError (camera.CamFromImg point2D) point3D cam_from_world

/-- The overload of `CalculateAngularError` taking an `Eigen::Matrix3x4d`
(lines 110-116). -/
def CalculateAngularErrorMat (point2D : Vector2d) (point3D : Vector3d)
    (cam_from_world : Matrix3x4d) (camera : Camera) : Double :=
  CalculateNormalizedAngularErrorMat (camera.CamFromImg point2D) point3D cam_from_world

/-- The function `HasPointPositiveDepth` (lines 135-166), in exact arithmetic; in double
arithmetic the function is `IEEE.HasPointPositiveDepth`. -/
def HasPointPositiveDepth (cam_from_world : Matrix3x4d) (point3D : Vector3d) : Bool :=
  let cam_from_world_4x4 := Matrix4d.Identity.setBlock34 cam_from_world
  let point_homogeneous := point3D.homogeneous
  let point_cam := cam_from_world_4x4.mulVec point_homogeneous
  let distance := point_cam.head3.norm
  if distance < epsilon then false
  else
    let inverse_depth := Double.div 1.0 distance
    let min_inverse_depth : ℝ := 1e-3
    let max_inverse_depth : ℝ := 1e3
    Double.lt (Double.finite min_inverse_depth) inverse_depth &&
      Double.lt inverse_depth (Double.finite max_inverse_depth)

/-! ## Quantities named by the specification -/

/-- The camera-space point `P * [X; 1]` of a 3x4 pose matrix and a world point. -/
def CameraSpacePoint (cam_from_world : Matrix3x4d) (point3D : Vector3d) : Vector3d :=
  cam_from_world.mulVec point3D.homogeneous

/-- The observed direction `M` of lines 53-58 (and 91-96) for a principal point
`(c1, c2)` with non-zero components: the angles `theta` and `phi` are then finite
quotients. -/
def ObservedDirection (point2D : Vector2d) (c1 c2 : ℝ) : Vector3d :=
  let theta := (point2D.x - c1) * Real.pi / c1
  let phi := (point2D.y - c2) * Real.pi / (2 * c2)
  ⟨Real.cos phi * Real.sin theta, Real.sin phi, Real.cos phi * Real.cos theta⟩

/-- The identity pose as a 3x4 matrix, `[I | 0]`. -/
def IdentityMatrix3x4d : Matrix3x4d := ⟨⟨1, 0, 0, 0⟩, ⟨0, 1, 0, 0⟩, ⟨0, 0, 1, 0⟩⟩

/-- A camera with principal point `(320, 240)` whose pixel to ray conversion is the
identity, used to instantiate the statements below. -/
def exampleCamera : Camera := ⟨320, 240, id⟩

/-- Component-wise difference, Eigen `a - b`. -/
def Vector3d.sub (a b : Vector3d) : Vector3d := ⟨a.x - b.x, a.y - b.y, a.z - b.z⟩

/-- Component-wise negation, Eigen `-a`. -/
def Vector3d.neg (a : Vector3d) : Vector3d := ⟨-a.x, -a.y, -a.z⟩

/-- Scaling of a 3-vector, Eigen `s * v`. -/
def Vector3d.smul (s : ℝ) (v : Vector3d) : Vector3d := ⟨s * v.x, s * v.y, s * v.z⟩

/-- Scaling of a 4-vector, Eigen `s * v`. -/
def Vector4d.smul (s : ℝ) (v : Vector4d) : Vector4d := ⟨s * v.x, s * v.y, s * v.z, s * v.w⟩

/-- Scaling of a 3x4 matrix, Eigen `s * P`. -/
def Matrix3x4d.smul (s : ℝ) (m : Matrix3x4d) : Matrix3x4d :=
  ⟨Vector4d.smul s m.row0, Vector4d.smul s m.row1, Vector4d.smul s m.row2⟩

/-- The transpose of a 3x3 matrix. -/
def Matrix3d.transpose (m : Matrix3d) : Matrix3d :=
  ⟨⟨m.row0.x, m.row1.x, m.row2.x⟩, ⟨m.row0.y, m.row1.y, m.row2.y⟩,
   ⟨m.row0.z, m.row1.z, m.row2.z⟩⟩

/-- The product of two 3x3 matrices: entry `(i, j)` is row `i` of `a` times column `j`
of `b`. -/
def Matrix3d.mul (a b : Matrix3d) : Matrix3d :=
  ⟨⟨a.row0.dot b.transpose.row0, a.row0.dot b.transpose.row1, a.row0.dot b.transpose.row2⟩,
   ⟨a.row1.dot b.transpose.row0, a.row1.dot b.transpose.row1, a.row1.dot b.transpose.row2⟩,
   ⟨a.row2.dot b.transpose.row0, a.row2.dot b.transpose.row1, a.row2.dot b.transpose.row2⟩⟩

/-- A 3x3 matrix `R` is orthogonal when `R^T R = I`. -/
def Matrix3d.IsOrthogonal (R : Matrix3d) : Prop := R.transpose.mul R = Matrix3d.Identity

/-- The same 3x3 matrix as a matrix of the mathematical library. -/
def Matrix3d.toMatrix (m : Matrix3d) : Matrix (Fin 3) (Fin 3) ℝ :=
  !![m.row0.x, m.row0.y, m.row0.z; m.row1.x, m.row1.y, m.row1.z;
     m.row2.x, m.row2.y, m.row2.z]

/-- The power `2 ^ k` for an integer exponent. -/
def pow2 (k : ℤ) : ℚ :=
  if 0 ≤ k then ((2 ^ k.toNat : ℕ) : ℚ) else 1 / ((2 ^ (-k).toNat : ℕ) : ℚ)

/-- The loop of `nlog2`, with fuel. -/
def log2Loop : ℕ → ℕ → ℕ
  | 0, _ => 0
  | k + 1, n => if n < 2 then 0 else log2Loop k (n / 2) + 1

/-- The binary logarithm `floor (log2 n)` of a positive natural number. -/
def nlog2 (n : ℕ) : ℕ := log2Loop n n

/-- The binary exponent `floor (log2 a)` of a positive rational `a = num / den`: it is
`log2 num - log2 den` or one less. -/
def ilog2 (a : ℚ) : ℤ :=
  let e0 : ℤ := (nlog2 a.num.natAbs : ℤ) - (nlog2 a.den : ℤ)
  if pow2 e0 ≤ a then e0 else e0 - 1

/-- Round a non-negative rational to the nearest integer, ties to even. -/
def roundHalfEven (x : ℚ) : ℤ :=
  let n := Rat.floor x
  let r := x - n
  if r < 1 / 2 then n else if 1 / 2 < r then n + 1 else if n % 2 = 0 then n else n + 1

/-- Digit-by-digit integer square root: the bits of the root from bit `k - 1` down. -/
def isqrtLoop (n : ℕ) : ℕ → ℕ → ℕ
  | 0, r => r
  | k + 1, r =>
    if (r + 2 ^ k) * (r + 2 ^ k) ≤ n then isqrtLoop n k (r + 2 ^ k) else isqrtLoop n k r

/-- The integer square root `floor (sqrt n)`. -/
def isqrt (n : ℕ) : ℕ := isqrtLoop n (nlog2 n / 2 + 1) 0

/-- A C++ `double` as the machine holds it: a finite binary64 number, given by its
rational value, or one of the special values `+inf`, `-inf`, `NaN`. The sign of a zero
is not modelled: in `projection.cc` it could only show in the sign of an infinity
produced by a division by zero, and every such infinity is next passed to `sin` and
`cos`, which return `NaN` for either sign. -/
inductive Binary64 where
  | finite (value : ℚ)
  | posInf
  | negInf
  | nan
  deriving DecidableEq

namespace Binary64

/-- Rounding of an exact result to binary64, to nearest with ties to even: 53
significant bits, gradual underflow below `2^-1022` (quantum `2^-1074`), overflow to an
infinity from `2^1024 - 2^970` (the midpoint above the largest finite double) on. -/
def round (x : ℚ) : Binary64 :=
  if x = 0 then finite 0
  else if pow2 1024 - pow2 970 ≤ |x| then (if 0 < x then posInf else negInf)
  else
    let q := max (ilog2 |x| - 52) (-1074)
    let m := roundHalfEven (|x| / pow2 q)
    finite (if 0 < x then (m : ℚ) * pow2 q else -((m : ℚ) * pow2 q))

/-- IEEE-754 negation. -/
def neg : Binary64 → Binary64
  | finite a => finite (-a)
  | posInf => negInf
  | negInf => posInf
  | nan => nan

/-- IEEE-754 addition `a + b`. -/
def add : Binary64 → Binary64 → Binary64
  | finite a, finite b => round (a + b)
  | finite _, posInf => posInf
  | finite _, negInf => negInf
  | posInf, finite _ => posInf
  | posInf, posInf => posInf
  | negInf, finite _ => negInf
  | negInf, negInf => negInf
  | _, _ => nan

/-- IEEE-754 subtraction `a - b`. -/
def sub (a b : Binary64) : Binary64 := add a (neg b)

/-- IEEE-754 multiplication `a * b`. -/
def mul : Binary64 → Binary64 → Binary64
  | finite a, finite b => round (a * b)
  | finite a, posInf => if a = 0 then nan else if 0 < a then posInf else negInf
  | finite a, negInf => if a = 0 then nan else if 0 < a then negInf else posInf
  | posInf, finite b => if b = 0 then nan else if 0 < b then posInf else negInf
  | negInf, finite b => if b = 0 then nan else if 0 < b then negInf else posInf
  | posInf, posInf => posInf
  | posInf, negInf => negInf
  | negInf, posInf => negInf
  | negInf, negInf => posInf
  | _, _ => nan

/-- IEEE-754 division `a / b`; a zero divisor counts as `+0`. -/
def div : Binary64 → Binary64 → Binary64
  | finite a, finite b =>
    if b = 0 then (if a = 0 then nan else if 0 < a then posInf else negInf)
    else round (a / b)
  | finite _, posInf => finite 0
  | finite _, negInf => finite 0
  | posInf, finite b => if 0 ≤ b then posInf else negInf
  | negInf, finite b => if 0 ≤ b then negInf else posInf
  | _, _ => nan

/-- IEEE-754 square root, correctly rounded: with `q` the exponent of the last place of
the root and `s = a / 4^q`, the integer part of `sqrt s` is `n = isqrt (floor s)`, and
`sqrt s` lies below or above `n + 1/2` as `s` lies below or above `(n + 1/2)^2`. -/
def sqrt : Binary64 → Binary64
  | finite a =>
    if a < 0 then nan
    else if a = 0 then finite 0
    else
      let q := max (ilog2 a / 2 - 52) (-1074)
      let s := a / pow2 (2 * q)
      let n : ℤ := isqrt (Rat.floor s).toNat
      let h : ℚ := (n : ℚ) + 1 / 2
      let m : ℤ := if s < h * h then n else if h * h < s then n + 1
        else if n % 2 = 0 then n else n + 1
      finite ((m : ℚ) * pow2 q)
  | posInf => posInf
  | _ => nan

/-- IEEE-754 comparison `a < b`: false as soon as one side is `NaN`. -/
def lt : Binary64 → Binary64 → Bool
  | finite a, finite b => decide (a < b)
  | finite _, posInf => true
  | negInf, finite _ => true
  | negInf, posInf => true
  | _, _ => false

/-- IEEE-754 comparison `a <= b`: false as soon as one side is `NaN`. -/
def le : Binary64 → Binary64 → Bool
  | finite a, finite b => decide (a ≤ b)
  | finite _, posInf => true
  | negInf, finite _ => true
  | negInf, posInf => true
  | posInf, posInf => true
  | negInf, negInf => true
  | _, _ => false

end Binary64

/-- The functions of the C math library that `projection.cc` calls, on finite
arguments. They are not part of the repository and are taken as a parameter: any
functions that return finite doubles and satisfy `sin 0 = 0` and `cos 0 = 1`, as
Annex F of the C standard requires. -/
structure Libm where
  sinQ : ℚ → ℚ
  cosQ : ℚ → ℚ
  acosQ : ℚ → ℚ
  sin_double : ∀ x, Binary64.round (sinQ x) = Binary64.finite (sinQ x)
  cos_double : ∀ x, Binary64.round (cosQ x) = Binary64.finite (cosQ x)
  acos_double : ∀ x, Binary64.round (acosQ x) = Binary64.finite (acosQ x)
  sin_zero : sinQ 0 = 0
  cos_zero : cosQ 0 = 1

namespace Libm

/-- The function `sin` of the C library: `NaN` for an infinite or `NaN` argument. -/
def sin (l : Libm) : Binary64 → Binary64
  | Binary64.finite x => Binary64.finite (l.sinQ x)
  | _ => Binary64.nan

/-- The function `cos` of the C library: `NaN` for an infinite or `NaN` argument. -/
def cos (l : Libm) : Binary64 → Binary64
  | Binary64.finite x => Binary64.finite (l.cosQ x)
  | _ => Binary64.nan

/-- The function `std::acos`: `NaN` (a domain error) for an argument outside `[-1, 1]`,
the library value inside; the code does not clamp the argument. -/
def acos (l : Libm) : Binary64 → Binary64
  | Binary64.finite x => if -1 ≤ x ∧ x ≤ 1 then Binary64.finite (l.acosQ x) else Binary64.nan
  | _ => Binary64.nan

end Libm

namespace IEEE

/-- The constant `M_PI`, the double nearest to `3.14159265358979323846`. -/
def M_PI : Binary64 := Binary64.round (314159265358979323846 / 100000000000000000000)

/-- The constant `std::numeric_limits<double>::epsilon()`, which is `2^-52`. -/
def epsilon : Binary64 := Binary64.finite (pow2 (-52))

/-- An `Eigen::Vector2d` of doubles. -/
structure Vector2d where
  x : Binary64
  y : Binary64
  deriving DecidableEq

/-- An `Eigen::Vector3d` of doubles. -/
structure Vector3d where
  x : Binary64
  y : Binary64
  z : Binary64
  deriving DecidableEq

/-- An `Eigen::Vector4d` of doubles. -/
structure Vector4d where
  x : Binary64
  y : Binary64
  z : Binary64
  w : Binary64
  deriving DecidableEq

/-- An `Eigen::Matrix3x4d` of doubles, by rows. -/
structure Matrix3x4d where
  row0 : Vector4d
  row1 : Vector4d
  row2 : Vector4d
  deriving DecidableEq

/-- An `Eigen::Matrix4d` of doubles, by rows. -/
structure Matrix4d where
  row0 : Vector4d
  row1 : Vector4d
  row2 : Vector4d
  row3 : Vector4d
  deriving DecidableEq

/-- Eigen `homogeneous()`: append the component `1`. -/
def Vector2d.homogeneous (v : Vector2d) : Vector3d := ⟨v.x, v.y, Binary64.finite 1⟩

namespace Vector3d

/-- Eigen `a.dot(b)`: the products are summed from left to right, each operation
rounded. The inputs evaluated in this file have a zero second component, so for them
the order of the three-term sum does not matter. -/
def dot (a b : Vector3d) : Binary64 :=
  Binary64.add (Binary64.add (Binary64.mul a.x b.x) (Binary64.mul a.y b.y))
    (Binary64.mul a.z b.z)

/-- Eigen `squaredNorm()`. -/
def squaredNorm (v : Vector3d) : Binary64 :=
  Binary64.add (Binary64.add (Binary64.mul v.x v.x) (Binary64.mul v.y v.y))
    (Binary64.mul v.z v.z)

/-- Eigen `norm()`: the square root of `squaredNorm()`. -/
def norm (v : Vector3d) : Binary64 := Binary64.sqrt v.squaredNorm

/-- Eigen `normalized()` (Eigen 3.3 and later, `Dot.h`):
`z = n.squaredNorm(); if (z > 0) return n / sqrt(z); else return n;`. -/
def normalized (v : Vector3d) : Vector3d :=
  let z := v.squaredNorm
  if Binary64.lt (Binary64.finite 0) z then
    ⟨Binary64.div v.x (Binary64.sqrt z), Binary64.div v.y (Binary64.sqrt z),
     Binary64.div v.z (Binary64.sqrt z)⟩
  else v

/-- Eigen `homogeneous()`: append the component `1`. -/
def homogeneous (v : Vector3d) : Vector4d := ⟨v.x, v.y, v.z, Binary64.finite 1⟩

end Vector3d

namespace Vector4d

/-- Eigen `a.dot(b)`, summed from left to right. -/
def dot (a b : Vector4d) : Binary64 :=
  Binary64.add (Binary64.add (Binary64.add (Binary64.mul a.x b.x) (Binary64.mul a.y b.y))
    (Binary64.mul a.z b.z)) (Binary64.mul a.w b.w)

/-- Eigen `head<3>()`: the first three components. -/
def head3 (v : Vector4d) : Vector3d := ⟨v.x, v.y, v.z⟩

/-- Scaling of a 4-vector, Eigen `s * v`. -/
def smul (s : Binary64) (v : Vector4d) : Vector4d :=
  ⟨Binary64.mul s v.x, Binary64.mul s v.y, Binary64.mul s v.z, Binary64.mul s v.w⟩

end Vector4d

namespace Matrix3x4d

/-- Matrix-vector product `cam_from_world * v` of a 3x4 matrix with a 4-vector. -/
def mulVec (m : Matrix3x4d) (v : Vector4d) : Vector3d :=
  ⟨m.row0.dot v, m.row1.dot v, m.row2.dot v⟩

/-- Scaling of a 3x4 matrix, Eigen `s * P`. -/
def smul (s : Binary64) (m : Matrix3x4d) : Matrix3x4d :=
  ⟨Vector4d.smul s m.row0, Vector4d.smul s m.row1, Vector4d.smul s m.row2⟩

end Matrix3x4d

namespace Matrix4d

/-- Eigen `Matrix4d::Identity()`. -/
def Identity : Matrix4d :=
  ⟨⟨Binary64.finite 1, Binary64.finite 0, Binary64.finite 0, Binary64.finite 0⟩,
   ⟨Binary64.finite 0, Binary64.finite 1, Binary64.finite 0, Binary64.finite 0⟩,
   ⟨Binary64.finite 0, Binary64.finite 0, Binary64.finite 1, Binary64.finite 0⟩,
   ⟨Binary64.finite 0, Binary64.finite 0, Binary64.finite 0, Binary64.finite 1⟩⟩

/-- The assignment `m.block<3, 4>(0, 0) = b`. -/
def setBlock34 (m : Matrix4d) (b : Matrix3x4d) : Matrix4d :=
  ⟨b.row0, b.row1, b.row2, m.row3⟩

/-- Matrix-vector product of a 4x4 matrix. -/
def mulVec (m : Matrix4d) (v : Vector4d) : Vector4d :=
  ⟨m.row0.dot v, m.row1.dot v, m.row2.dot v, m.row3.dot v⟩

end Matrix4d

/-- The class `Camera` of `colmap/scene/camera.h`, with double components. -/
structure Camera where
  PrincipalPointX : Binary64
  PrincipalPointY : Binary64
  CamFromImg : Vector2d → Vector2d

/-- The overload of `CalculateSquaredReprojectionError` taking an `Eigen::Matrix3x4d`
(lines 66-100), every operation rounded to double. -/
def CalculateSquaredReprojectionErrorMat (libm : Libm) (point2D : Vector2d)
    (point3D : Vector3d) (cam_from_world : Matrix3x4d) (camera : Camera) : Binary64 :=
  let proj_z := cam_from_world.row2.dot point3D.homogeneous
  let proj_x := cam_from_world.row0.dot point3D.homogeneous
  let proj_y := cam_from_world.row1.dot point3D.homogeneous
  let coords_3D : Vector3d := ⟨proj_x, proj_y, proj_z⟩
  let coords_3D := coords_3D.normalized
  let c1 := camera.PrincipalPointX
  let c2 := camera.PrincipalPointY
  let pi := M_PI
  let two := Binary64.finite 2
  let theta := Binary64.div (Binary64.mul (Binary64.sub point2D.x c1) pi) c1
  let phi := Binary64.div (Binary64.mul (Binary64.sub point2D.y c2) pi) (Binary64.mul two c2)
  let coords_3D_1 : Vector3d :=
    ⟨Binary64.mul (libm.cos phi) (libm.sin theta), libm.sin phi,
     Binary64.mul (libm.cos phi) (libm.cos theta)⟩
  let M_dot_m := coords_3D.dot coords_3D_1
  Binary64.div (Binary64.mul (Binary64.finite 4) (Binary64.sub (Binary64.finite 1) M_dot_m))
    (Binary64.add (Binary64.finite 1) M_dot_m)

/-- The overload of `CalculateNormalizedAngularError` taking an `Eigen::Matrix3x4d`
(lines 126-133), every operation rounded to double. -/
def CalculateNormalizedAngularErrorMat (libm : Libm) (point2D : Vector2d)
    (point3D : Vector3d) (cam_from_world : Matrix3x4d) : Binary64 :=
  let ray1 := point2D.homogeneous
  let ray2 := cam_from_world.mulVec point3D.homogeneous
  libm.acos (ray1.normalized.dot ray2.normalized)

/-- The overload of `CalculateAngularError` taking an `Eigen::Matrix3x4d`
(lines 110-116). -/
def CalculateAngularErrorMat (libm : Libm) (point2D : Vector2d) (point3D : Vector3d)
    (cam_from_world : Matrix3x4d) (camera : Camera) : Binary64 :=
  CalculateNormalizedAngularErrorMat libm (camera.CamFromImg point2D) point3D cam_from_world

/-- The function `HasPointPositiveDepth` (lines 135-166), every operation rounded to
double. -/
def HasPointPositiveDepth (cam_from_world : Matrix3x4d) (point3D : Vector3d) : Bool :=
  let cam_from_world_4x4 := Matrix4d.Identity.setBlock34 cam_from_world
  let point_homogeneous := point3D.homogeneous
  let point_cam := cam_from_world_4x4.mulVec point_homogeneous
  let distance := point_cam.head3.norm
  if Binary64.lt distance epsilon then false
  else
    let inverse_depth := Binary64.div (Binary64.finite 1) distance
    let min_inverse_depth := Binary64.round (1 / 1000)
    let max_inverse_depth := Binary64.finite 1000
    Binary64.lt min_inverse_depth inverse_depth &&
      Binary64.lt inverse_depth max_inverse_depth

/-- The function `HasPointPositiveDepth` (lines 135-166) together with the divisor of
every division it executes. -/
def HasPointPositiveDepthTraced (cam_from_world : Matrix3x4d) (point3D : Vector3d) :
    Bool × List Binary64 :=
  let cam_from_world_4x4 := Matrix4d.Identity.setBlock34 cam_from_world
  let point_homogeneous := point3D.homogeneous
  let point_cam := cam_from_world_4x4.mulVec point_homogeneous
  let distance := point_cam.head3.norm
  if Binary64.lt distance epsilon then (false, [])
  else
    let inverse_depth := Binary64.div (Binary64.finite 1) distance
    let min_inverse_depth := Binary64.round (1 / 1000)
    let max_inverse_depth := Binary64.finite 1000
    (Binary64.lt min_inverse_depth inverse_depth &&
      Binary64.lt inverse_depth max_inverse_depth, [distance])

/-- The camera-space point `P * [X; 1]` in double arithmetic. -/
def CameraSpacePoint (cam_from_world : Matrix3x4d) (point3D : Vector3d) : Vector3d :=
  cam_from_world.mulVec point3D.homogeneous

/-- The observed direction `M` of lines 91-96 in double arithmetic. -/
def ObservedDirection (libm : Libm) (point2D : Vector2d) (c1 c2 : Binary64) : Vector3d :=
  let theta := Binary64.div (Binary64.mul (Binary64.sub point2D.x c1) M_PI) c1
  let phi := Binary64.div (Binary64.mul (Binary64.sub point2D.y c2) M_PI)
    (Binary64.mul (Binary64.finite 2) c2)
  ⟨Binary64.mul (libm.cos phi) (libm.sin theta), libm.sin phi,
   Binary64.mul (libm.cos phi) (libm.cos theta)⟩

/-- The return expression `4* (1-M_dot_m)/(1+M_dot_m)` in double arithmetic. -/
def SquaredErrorFromDot (M_dot_m : Binary64) : Binary64 :=
  Binary64.div (Binary64.mul (Binary64.finite 4) (Binary64.sub (Binary64.finite 1) M_dot_m))
    (Binary64.add (Binary64.finite 1) M_dot_m)

/-- The identity pose as a 3x4 matrix of doubles, `[I | 0]`. -/
def IdentityMatrix3x4d : Matrix3x4d :=
  ⟨⟨Binary64.finite 1, Binary64.finite 0, Binary64.finite 0, Binary64.finite 0⟩,
   ⟨Binary64.finite 0, Binary64.finite 1, Binary64.finite 0, Binary64.finite 0⟩,
   ⟨Binary64.finite 0, Binary64.finite 0, Binary64.finite 1, Binary64.finite 0⟩⟩

/-- A camera with principal point `(320, 240)` whose pixel to ray conversion is the
identity. -/
def exampleCamera : Camera := ⟨Binary64.finite 320, Binary64.finite 240, id⟩

end IEEE

namespace IEEE

end IEEE

/-! ## Instrumented functions in exact arithmetic -/

/-- The function `HasPointPositiveDepth` (lines 135-166) in exact arithmetic together
with the divisor of every division it executes. -/
def HasPointPositiveDepthTraced (cam_from_world : Matrix3x4d) (point3D : Vector3d) :
    Bool × List ℝ :=
  let cam_from_world_4x4 := Matrix4d.Identity.setBlock34 cam_from_world
  let point_homogeneous := point3D.homogeneous
  let point_cam := cam_from_world_4x4.mulVec point_homogeneous
  let distance := point_cam.head3.norm
  if distance < epsilon then (false, [])
  else
    let inverse_depth := Double.div 1.0 distance
    let min_inverse_depth : ℝ := 1e-3
    let max_inverse_depth : ℝ := 1e3
    (Double.lt (Double.finite min_inverse_depth) inverse_depth &&
      Double.lt inverse_depth (Double.finite max_inverse_depth), [distance])

theorem epsilon_pos : 0 < epsilon := by
  unfold epsilon; positivity

theorem epsilon_lt : epsilon < 1e-3 := by
  unfold epsilon; norm_num

theorem head3_point_cam (cam_from_world : Matrix3x4d) (point3D : Vector3d) :
    ((Matrix4d.Identity.setBlock34 cam_from_world).mulVec point3D.homogeneous).head3
      = CameraSpacePoint cam_from_world point3D := rfl

theorem Vector3d.squaredNorm_nonneg (v : Vector3d) : 0 ≤ v.squaredNorm := by
  unfold Vector3d.squaredNorm
  nlinarith [mul_self_nonneg v.x, mul_self_nonneg v.y, mul_self_nonneg v.z]

theorem Vector3d.norm_nonneg (v : Vector3d) : 0 ≤ v.norm := Real.sqrt_nonneg _

/-- The depth test in terms of the distance alone. -/
theorem HasPointPositiveDepth_iff_distance (cam_from_world : Matrix3x4d)
    (point3D : Vector3d) :
    HasPointPositiveDepth cam_from_world point3D = true ↔
      1e-3 < (CameraSpacePoint cam_from_world point3D).norm ∧
        (CameraSpacePoint cam_from_world point3D).norm < 1e3 := by
  unfold HasPointPositiveDepth
  simp only [head3_point_cam]
  set d := (CameraSpacePoint cam_from_world point3D).norm with hd
  by_cases h : d < epsilon
  · have h1 := epsilon_lt
    simp only [h, if_true]
    constructor
    · intro hf; exact absurd hf (by simp)
    · rintro ⟨h2, _⟩; linarith
  · have hpos : 0 < d := lt_of_lt_of_le epsilon_pos (not_lt.mp h)
    have hne : d ≠ 0 := ne_of_gt hpos
    simp only [h, if_false, Double.div, hne, Double.lt, Bool.and_eq_true, decide_eq_true_eq]
    constructor
    · rintro ⟨h1, h2⟩
      constructor
      · rw [lt_div_iff₀ hpos] at h1
        rw [div_lt_iff₀ hpos] at h2
        norm_num at h1 h2 ⊢
        linarith
      · rw [lt_div_iff₀ hpos] at h1
        norm_num at h1 ⊢
        linarith
    · rintro ⟨h1, h2⟩
      constructor
      · rw [lt_div_iff₀ hpos]
        norm_num at h1 h2 ⊢
        linarith
      · rw [div_lt_iff₀ hpos]
        norm_num at h1 h2 ⊢
        linarith

theorem CameraSpacePoint_identity (point3D : Vector3d) :
    CameraSpacePoint IdentityMatrix3x4d point3D = point3D := by
  ext <;> simp [CameraSpacePoint, IdentityMatrix3x4d, Matrix3x4d.mulVec, Vector4d.dot,
    Vector3d.homogeneous]

theorem Rigid3d.apply_identity (point3D : Vector3d) :
    Rigid3d.Identity.apply point3D = point3D := by
  ext <;> simp [Rigid3d.apply, Rigid3d.Identity, Matrix3d.Identity, Matrix3d.mulVec,
    Vector3d.dot, Vector3d.add]

theorem Rigid3d.apply_eq_CameraSpacePoint (t : Rigid3d) (p : Vector3d) :
    t.apply p = CameraSpacePoint t.ToMatrix p := by
  ext <;> simp [Rigid3d.apply, Rigid3d.ToMatrix, CameraSpacePoint, Matrix3x4d.mulVec,
    Matrix3d.mulVec, Vector4d.dot, Vector3d.dot, Vector3d.add, Vector3d.homogeneous]

theorem Vector3d.dot_comm (a b : Vector3d) : a.dot b = b.dot a := by
  unfold Vector3d.dot; ring

theorem Vector3d.norm_axis (z : ℝ) (hz : 0 ≤ z) : (⟨0, 0, z⟩ : Vector3d).norm = z := by
  unfold Vector3d.norm Vector3d.squaredNorm
  simp only [mul_zero, zero_add]
  exact Real.sqrt_mul_self hz

theorem Vector3d.squaredNorm_eq_zero {v : Vector3d} (h : v.squaredNorm = 0) :
    v = ⟨0, 0, 0⟩ := by
  unfold Vector3d.squaredNorm at h
  have hx : v.x = 0 := by nlinarith [mul_self_nonneg v.x, mul_self_nonneg v.y, mul_self_nonneg v.z]
  have hy : v.y = 0 := by nlinarith [mul_self_nonneg v.x, mul_self_nonneg v.y, mul_self_nonneg v.z]
  have hz : v.z = 0 := by nlinarith [mul_self_nonneg v.x, mul_self_nonneg v.y, mul_self_nonneg v.z]
  ext <;> assumption

theorem Vector3d.squaredNorm_pos {v : Vector3d} (h : v ≠ ⟨0, 0, 0⟩) : 0 < v.squaredNorm := by
  rcases (Vector3d.squaredNorm_nonneg v).lt_or_eq with h1 | h1
  · exact h1
  · exact absurd (Vector3d.squaredNorm_eq_zero h1.symm) h

theorem Vector3d.squaredNorm_of_norm_eq_one {v : Vector3d} (h : v.norm = 1) :
    v.squaredNorm = 1 := by
  unfold Vector3d.norm at h
  exact Real.sqrt_eq_one.mp h

/-- A vector with positive squared norm is normalized to a unit vector. -/
theorem Vector3d.squaredNorm_normalized {v : Vector3d} (h : 0 < v.squaredNorm) :
    v.normalized.squaredNorm = 1 := by
  have hs : 0 < Real.sqrt v.squaredNorm := Real.sqrt_pos.mpr h
  have hss : Real.sqrt v.squaredNorm * Real.sqrt v.squaredNorm = v.squaredNorm :=
    Real.mul_self_sqrt h.le
  unfold Vector3d.normalized
  simp only [h, if_true]
  show v.x / Real.sqrt v.squaredNorm * (v.x / Real.sqrt v.squaredNorm)
      + v.y / Real.sqrt v.squaredNorm * (v.y / Real.sqrt v.squaredNorm)
      + v.z / Real.sqrt v.squaredNorm * (v.z / Real.sqrt v.squaredNorm) = 1
  have e : v.x / Real.sqrt v.squaredNorm * (v.x / Real.sqrt v.squaredNorm)
      + v.y / Real.sqrt v.squaredNorm * (v.y / Real.sqrt v.squaredNorm)
      + v.z / Real.sqrt v.squaredNorm * (v.z / Real.sqrt v.squaredNorm)
      = (v.x * v.x + v.y * v.y + v.z * v.z)
        / (Real.sqrt v.squaredNorm * Real.sqrt v.squaredNorm) := by
    field_simp
  rw [e, hss]
  exact div_self (ne_of_gt h)

/-- The result of Eigen `normalized()` has squared norm at most one. -/
theorem Vector3d.squaredNorm_normalized_le_one (v : Vector3d) :
    v.normalized.squaredNorm ≤ 1 := by
  by_cases h : 0 < v.squaredNorm
  · exact (Vector3d.squaredNorm_normalized h).le
  · have h0 : v.squaredNorm = 0 := le_antisymm (not_lt.mp h) (Vector3d.squaredNorm_nonneg v)
    have : v.normalized = v := by unfold Vector3d.normalized; simp [h]
    rw [this, h0]; exact zero_le_one

/-- The dot product of two vectors of squared norm at most one lies in `[-1, 1]`. -/
theorem Vector3d.dot_mem_of_le_one {a b : Vector3d} (ha : a.squaredNorm ≤ 1)
    (hb : b.squaredNorm ≤ 1) : -1 ≤ a.dot b ∧ a.dot b ≤ 1 := by
  unfold Vector3d.squaredNorm at ha hb
  unfold Vector3d.dot
  constructor
  · nlinarith [sq_nonneg (a.x + b.x), sq_nonneg (a.y + b.y), sq_nonneg (a.z + b.z)]
  · nlinarith [sq_nonneg (a.x - b.x), sq_nonneg (a.y - b.y), sq_nonneg (a.z - b.z)]

/-- The observed direction is a unit vector. -/
theorem ObservedDirection_squaredNorm (point2D : Vector2d) (c1 c2 : ℝ) :
    (ObservedDirection point2D c1 c2).squaredNorm = 1 := by
  unfold ObservedDirection Vector3d.squaredNorm
  simp only
  have h1 := Real.sin_sq_add_cos_sq ((point2D.x - c1) * Real.pi / c1)
  have h2 := Real.sin_sq_add_cos_sq ((point2D.y - c2) * Real.pi / (2 * c2))
  linear_combination (Real.cos ((point2D.y - c2) * Real.pi / (2 * c2)) ^ 2) * h1 + h2

/-- With a non-zero principal point the rigid overload is the return expression at
the dot product of the observed and the predicted direction. -/
theorem CalculateSquaredReprojectionError_eq (point2D : Vector2d) (point3D : Vector3d)
    (cam_from_world : Rigid3d) (camera : Camera)
    (hcx : camera.PrincipalPointX ≠ 0) (hcy : camera.PrincipalPointY ≠ 0) :
    CalculateSquaredReprojectionError point2D point3D cam_from_world camera =
      SquaredErrorFromDot
        ((ObservedDirection point2D camera.PrincipalPointX camera.PrincipalPointY).dot
          (cam_from_world.apply point3D).normalized) := by
  have h2 : (2 : ℝ) * camera.PrincipalPointY ≠ 0 := mul_ne_zero two_ne_zero hcy
  simp only [CalculateSquaredReprojectionError, Double.div, hcx, h2, if_false, Double.bind,
    ObservedDirection]

/-- With a non-zero principal point the matrix overload is the return expression at
the dot product of the predicted and the observed direction. -/
theorem CalculateSquaredReprojectionErrorMat_eq (point2D : Vector2d) (point3D : Vector3d)
    (cam_from_world : Matrix3x4d) (camera : Camera)
    (hcx : camera.PrincipalPointX ≠ 0) (hcy : camera.PrincipalPointY ≠ 0) :
    CalculateSquaredReprojectionErrorMat point2D point3D cam_from_world camera =
      SquaredErrorFromDot
        ((CameraSpacePoint cam_from_world point3D).normalized.dot
          (ObservedDirection point2D camera.PrincipalPointX camera.PrincipalPointY)) := by
  have h2 : (2 : ℝ) * camera.PrincipalPointY ≠ 0 := mul_ne_zero two_ne_zero hcy
  simp only [CalculateSquaredReprojectionErrorMat, Double.div, hcx, h2, if_false, Double.bind,
    ObservedDirection, CameraSpacePoint, Matrix3x4d.mulVec]

/-- The return expression is non-negative (finite or `+inf`) on `[-1, 1]`. -/
theorem SquaredErrorFromDot_nonneg {d : ℝ} (h1 : -1 ≤ d) (h2 : d ≤ 1) :
    Double.le (Double.finite 0) (SquaredErrorFromDot d) = true := by
  unfold SquaredErrorFromDot Double.div
  by_cases h : 1 + d = 0
  · have hd : d = -1 := by linarith
    have hpos : (0 : ℝ) < 4 * (1 - d) := by rw [hd]; norm_num
    simp [h, hpos, Double.le]
  · have hpos : 0 < 1 + d := lt_of_le_of_ne (by linarith) (Ne.symm h)
    have : 0 ≤ 4 * (1 - d) / (1 + d) := div_nonneg (by linarith) hpos.le
    simp [h, Double.le, this]

/-- The return expression is finite away from `-1`. -/
theorem SquaredErrorFromDot_of_ne {d : ℝ} (h : d ≠ -1) :
    SquaredErrorFromDot d = Double.finite (4 * (1 - d) / (1 + d)) := by
  have h1 : 1 + d ≠ 0 := fun h0 => h (by linarith)
  simp [SquaredErrorFromDot, Double.div, h1]

/-- The return expression is `+inf` at `-1`. -/
theorem SquaredErrorFromDot_neg_one : SquaredErrorFromDot (-1) = Double.posInf := by
  simp [SquaredErrorFromDot, Double.div]

/-! ## Claims -/

/-- C2, amended to exact arithmetic (every `double` read as the real number it denotes,
without rounding, overflow or underflow): for every pixel, every camera with principal point `cx ≠ 0` and `cy ≠ 0`,
every pose (in either representation) and every point3D whose camera-space image is
non-zero, `CalculateSquaredReprojectionError` returns a non-negative value: the
comparison `0 <= result` holds, where the result is `4*(1 - d)/(1 + d)` at the dot
product `d` of the unit observed direction and the unit predicted direction. -/
theorem C2_CalculateSquaredReprojectionError_nonneg (point2D : Vector2d)
    (point3D : Vector3d) (pose : Rigid3d) (P : Matrix3x4d) (camera : Camera)
    (hcx : camera.PrincipalPointX ≠ 0) (hcy : camera.PrincipalPointY ≠ 0)
    (hpose : pose.apply point3D ≠ ⟨0, 0, 0⟩)
    (hP : CameraSpacePoint P point3D ≠ ⟨0, 0, 0⟩) :
    ((ObservedDirection point2D camera.PrincipalPointX camera.PrincipalPointY).norm = 1 ∧
      (pose.apply point3D).normalized.norm = 1 ∧
      CalculateSquaredReprojectionError point2D point3D pose camera =
        SquaredErrorFromDot
          ((ObservedDirection point2D camera.PrincipalPointX camera.PrincipalPointY).dot
            (pose.apply point3D).normalized) ∧
      Double.le (Double.finite 0)
        (CalculateSquaredReprojectionError point2D point3D pose camera) = true) ∧
    ((CameraSpacePoint P point3D).normalized.norm = 1 ∧
      CalculateSquaredReprojectionErrorMat point2D point3D P camera =
        SquaredErrorFromDot
          ((CameraSpacePoint P point3D).normalized.dot
            (ObservedDirection point2D camera.PrincipalPointX camera.PrincipalPointY)) ∧
      Double.le (Double.finite 0)
        (CalculateSquaredReprojectionErrorMat point2D point3D P camera) = true) := by
  have hM := ObservedDirection_squaredNorm point2D camera.PrincipalPointX
    camera.PrincipalPointY
  have hm1 := Vector3d.squaredNorm_normalized (Vector3d.squaredNorm_pos hpose)
  have hm2 := Vector3d.squaredNorm_normalized (Vector3d.squaredNorm_pos hP)
  have e1 := CalculateSquaredReprojectionError_eq point2D point3D pose camera hcx hcy
  have e2 := CalculateSquaredReprojectionErrorMat_eq point2D point3D P camera hcx hcy
  have b1 := Vector3d.dot_mem_of_le_one hM.le hm1.le
  have b2 := Vector3d.dot_mem_of_le_one hm2.le hM.le
  refine ⟨⟨?_, ?_, e1, ?_⟩, ?_, e2, ?_⟩
  · unfold Vector3d.norm; rw [hM]; exact Real.sqrt_one
  · unfold Vector3d.norm; rw [hm1]; exact Real.sqrt_one
  · rw [e1]; exact SquaredErrorFromDot_nonneg b1.1 b1.2
  · unfold Vector3d.norm; rw [hm2]; exact Real.sqrt_one
  · rw [e2]; exact SquaredErrorFromDot_nonneg b2.1 b2.2

/-- Witness of C2: the camera with principal point `(320, 240)`, the centre pixel,
the identity pose and the point `(0, 0, 1)`. -/
theorem C2_CalculateSquaredReprojectionError_nonneg_witness :
    Double.le (Double.finite 0)
      (CalculateSquaredReprojectionError ⟨320, 240⟩ ⟨0, 0, 1⟩ Rigid3d.Identity
        exampleCamera) = true ∧
    Double.le (Double.finite 0)
      (CalculateSquaredReprojectionErrorMat ⟨320, 240⟩ ⟨0, 0, 1⟩ IdentityMatrix3x4d
        exampleCamera) = true := by
  have hne : (⟨0, 0, 1⟩ : Vector3d) ≠ ⟨0, 0, 0⟩ := by
    intro h
    have := congrArg Vector3d.z h
    simp at this
  have h := C2_CalculateSquaredReprojectionError_nonneg ⟨320, 240⟩ ⟨0, 0, 1⟩
    Rigid3d.Identity IdentityMatrix3x4d exampleCamera
    (by simp [exampleCamera]) (by simp [exampleCamera])
    (by rw [Rigid3d.apply_identity]; exact hne)
    (by rw [CameraSpacePoint_identity]; exact hne)
  exact ⟨h.1.2.2.2, h.2.2.2⟩

/-- Two unit vectors with dot product one are equal. -/
theorem Vector3d.eq_of_dot_eq_one {a b : Vector3d} (ha : a.squaredNorm = 1)
    (hb : b.squaredNorm = 1) (h : a.dot b = 1) : a = b := by
  unfold Vector3d.squaredNorm at ha hb
  unfold Vector3d.dot at h
  have hs : (a.x - b.x) ^ 2 + (a.y - b.y) ^ 2 + (a.z - b.z) ^ 2 = 0 := by
    linear_combination ha + hb - 2 * h
  have hx : a.x - b.x = 0 := by
    nlinarith [sq_nonneg (a.x - b.x), sq_nonneg (a.y - b.y), sq_nonneg (a.z - b.z)]
  have hy : a.y - b.y = 0 := by
    nlinarith [sq_nonneg (a.x - b.x), sq_nonneg (a.y - b.y), sq_nonneg (a.z - b.z)]
  have hz : a.z - b.z = 0 := by
    nlinarith [sq_nonneg (a.x - b.x), sq_nonneg (a.y - b.y), sq_nonneg (a.z - b.z)]
  ext
  · linarith
  · linarith
  · linarith

/-- C3: for every pair of unit-norm directions `M` and `m`, the reprojection error
formula `4*(1 - M.m)/(1 + M.m)` returns `0` if and only if `M = m`. -/
theorem C3_SquaredErrorFromDot_eq_zero_iff (M m : Vector3d) (hM : M.norm = 1)
    (hm : m.norm = 1) :
    SquaredErrorFromDot (M.dot m) = Double.finite 0 ↔ M = m := by
  have sM := Vector3d.squaredNorm_of_norm_eq_one hM
  have sm := Vector3d.squaredNorm_of_norm_eq_one hm
  have b := Vector3d.dot_mem_of_le_one sM.le sm.le
  constructor
  · intro h
    by_cases hd : M.dot m = -1
    · rw [hd, SquaredErrorFromDot_neg_one] at h
      exact Double.noConfusion h
    · rw [SquaredErrorFromDot_of_ne hd] at h
      have h0 : 4 * (1 - M.dot m) / (1 + M.dot m) = 0 := Double.finite.inj h
      have hne : 1 + M.dot m ≠ 0 := fun h1 => hd (by linarith)
      rcases div_eq_zero_iff.mp h0 with h1 | h1
      · exact Vector3d.eq_of_dot_eq_one sM sm (by linarith)
      · exact absurd h1 hne
  · intro h
    subst h
    have hd : M.dot M = 1 := sM
    rw [hd, SquaredErrorFromDot_of_ne (by norm_num)]
    norm_num

/-- Witness of C3: the formula is `0` for `M = m = (0, 0, 1)`, and it is not `0` for
the antipodal pair `M = (0, 0, 1)`, `m = (0, 0, -1)`. -/
theorem C3_SquaredErrorFromDot_eq_zero_iff_witness :
    SquaredErrorFromDot ((⟨0, 0, 1⟩ : Vector3d).dot ⟨0, 0, 1⟩) = Double.finite 0 ∧
    SquaredErrorFromDot ((⟨0, 0, 1⟩ : Vector3d).dot ⟨0, 0, -1⟩) ≠ Double.finite 0 := by
  have h1 : (⟨0, 0, 1⟩ : Vector3d).norm = 1 := Vector3d.norm_axis 1 zero_le_one
  have h2 : (⟨0, 0, -1⟩ : Vector3d).norm = 1 := by
    unfold Vector3d.norm Vector3d.squaredNorm
    norm_num
  constructor
  · exact (C3_SquaredErrorFromDot_eq_zero_iff ⟨0, 0, 1⟩ ⟨0, 0, 1⟩ h1 h1).mpr rfl
  · intro h
    have e := (C3_SquaredErrorFromDot_eq_zero_iff ⟨0, 0, 1⟩ ⟨0, 0, -1⟩ h1 h2).mp h
    have := congrArg Vector3d.z e
    norm_num at this

/-- The half-angle identity behind the return expression: for `-1 < d ≤ 1`,
`tan (arccos d / 2) ^ 2 = (1 - d) / (1 + d)`. -/
theorem tan_half_arccos_sq {d : ℝ} (h1 : -1 < d) (h2 : d ≤ 1) :
    Real.tan (Real.arccos d / 2) ^ 2 = (1 - d) / (1 + d) := by
  have hc : Real.cos (Real.arccos d) = d := Real.cos_arccos h1.le h2
  have hcos : Real.cos (Real.arccos d / 2) ^ 2 = (1 + d) / 2 := by
    have := Real.cos_sq (Real.arccos d / 2)
    rw [mul_div_cancel₀ _ (two_ne_zero : (2 : ℝ) ≠ 0), hc] at this
    rw [this]; ring
  have hsin : Real.sin (Real.arccos d / 2) ^ 2 = (1 - d) / 2 := by
    have := Real.sin_sq_add_cos_sq (Real.arccos d / 2)
    rw [hcos] at this
    linarith
  have hpos : (0 : ℝ) < 1 + d := by linarith
  rw [Real.tan_eq_sin_div_cos, div_pow, hsin, hcos]
  field_simp

/-- C4: for unit directions `M` (observed) and `m` (predicted) with `M.m ≠ -1` and
angle `a = arccos (M.m)`, the value returned by `CalculateSquaredReprojectionError`,
`4*(1 - M.m)/(1 + M.m)`, equals `4 * tan (a / 2) ^ 2`. -/
theorem C4_SquaredErrorFromDot_eq_tan_half (M m : Vector3d) (hM : M.norm = 1)
    (hm : m.norm = 1) (hd : M.dot m ≠ -1) :
    SquaredErrorFromDot (M.dot m) =
      Double.finite (4 * Real.tan (Real.arccos (M.dot m) / 2) ^ 2) := by
  have sM := Vector3d.squaredNorm_of_norm_eq_one hM
  have sm := Vector3d.squaredNorm_of_norm_eq_one hm
  have b := Vector3d.dot_mem_of_le_one sM.le sm.le
  have h1 : -1 < M.dot m := lt_of_le_of_ne b.1 (Ne.symm hd)
  rw [SquaredErrorFromDot_of_ne hd, tan_half_arccos_sq h1 b.2]
  congr 1
  ring

/-- Witness of C4: the perpendicular pair `M = (0, 0, 1)`, `m = (0, 1, 0)`. -/
theorem C4_SquaredErrorFromDot_eq_tan_half_witness :
    SquaredErrorFromDot ((⟨0, 0, 1⟩ : Vector3d).dot ⟨0, 1, 0⟩) =
      Double.finite (4 * Real.tan
        (Real.arccos ((⟨0, 0, 1⟩ : Vector3d).dot ⟨0, 1, 0⟩) / 2) ^ 2) := by
  have h1 : (⟨0, 0, 1⟩ : Vector3d).norm = 1 := Vector3d.norm_axis 1 zero_le_one
  have h2 : (⟨0, 1, 0⟩ : Vector3d).norm = 1 := by
    unfold Vector3d.norm Vector3d.squaredNorm
    norm_num
  exact C4_SquaredErrorFromDot_eq_tan_half ⟨0, 0, 1⟩ ⟨0, 1, 0⟩ h1 h2
    (by simp [Vector3d.dot])

/-- The return expression is strictly decreasing in the dot product on `(-1, 1]`. -/
theorem error_lt_error_of_dot_lt {c d : ℝ} (hc : -1 < c) (hcd : c < d) :
    4 * (1 - d) / (1 + d) < 4 * (1 - c) / (1 + c) := by
  have h1 : (0 : ℝ) < 1 + c := by linarith
  have h2 : (0 : ℝ) < 1 + d := by linarith
  rw [div_lt_div_iff₀ h2 h1]
  nlinarith

/-- The cosine of an angle in `[0, pi)` is not `-1`. -/
theorem cos_ne_neg_one_of_lt_pi {a : ℝ} (h0 : 0 ≤ a) (h1 : a < Real.pi) :
    Real.cos a ≠ -1 := by
  have := Real.cos_lt_cos_of_nonneg_of_le_pi h0 le_rfl h1
  rw [Real.cos_pi] at this
  exact ne_of_gt this

/-- C5: as a function of the angle `a` in `[0, pi)` between the unit observed and
predicted directions, the reprojection error `4*(1 - cos a)/(1 + cos a)` is strictly
increasing and unbounded: for all `0 ≤ a1 < a2 < pi` the error at `a1` is smaller
than the error at `a2`, and for every bound `B` there is an angle `a < pi` whose
error exceeds `B`. -/
theorem C5_error_strictly_increasing_unbounded :
    (∀ a1 a2 : ℝ, 0 ≤ a1 → a1 < a2 → a2 < Real.pi →
      SquaredErrorFromDot (Real.cos a1)
        = Double.finite (4 * (1 - Real.cos a1) / (1 + Real.cos a1)) ∧
      SquaredErrorFromDot (Real.cos a2)
        = Double.finite (4 * (1 - Real.cos a2) / (1 + Real.cos a2)) ∧
      4 * (1 - Real.cos a1) / (1 + Real.cos a1)
        < 4 * (1 - Real.cos a2) / (1 + Real.cos a2)) ∧
    (∀ B : ℝ, ∃ a : ℝ, 0 ≤ a ∧ a < Real.pi ∧
      SquaredErrorFromDot (Real.cos a)
        = Double.finite (4 * (1 - Real.cos a) / (1 + Real.cos a)) ∧
      B < 4 * (1 - Real.cos a) / (1 + Real.cos a)) := by
  constructor
  · intro a1 a2 h0 h12 h2
    have hc2 : -1 < Real.cos a2 := by
      have := Real.cos_lt_cos_of_nonneg_of_le_pi (h0.trans h12.le) le_rfl h2
      rwa [Real.cos_pi] at this
    have hlt : Real.cos a2 < Real.cos a1 :=
      Real.cos_lt_cos_of_nonneg_of_le_pi h0 h2.le h12
    exact ⟨SquaredErrorFromDot_of_ne (cos_ne_neg_one_of_lt_pi h0 (h12.trans h2)),
      SquaredErrorFromDot_of_ne (cos_ne_neg_one_of_lt_pi (h0.trans h12.le) h2),
      error_lt_error_of_dot_lt hc2 hlt⟩
  · intro B
    have hB : (0 : ℝ) < |B| + 8 := by positivity
    have hs0 : (0 : ℝ) < 8 / (|B| + 8) := div_pos (by norm_num) hB
    have hs1 : 8 / (|B| + 8) ≤ 1 := by
      rw [div_le_one hB]; linarith [abs_nonneg B]
    have hd1 : -1 < 8 / (|B| + 8) - 1 := by linarith
    have hd2 : 8 / (|B| + 8) - 1 ≤ 1 := by linarith
    have hcos : Real.cos (Real.arccos (8 / (|B| + 8) - 1)) = 8 / (|B| + 8) - 1 :=
      Real.cos_arccos hd1.le hd2
    have hlt : Real.arccos (8 / (|B| + 8) - 1) < Real.pi := by
      refine lt_of_le_of_ne (Real.arccos_le_pi _) ?_
      intro h
      have := Real.arccos_eq_pi.mp h
      linarith
    refine ⟨Real.arccos (8 / (|B| + 8) - 1), Real.arccos_nonneg _, hlt,
      SquaredErrorFromDot_of_ne (cos_ne_neg_one_of_lt_pi (Real.arccos_nonneg _) hlt), ?_⟩
    rw [hcos]
    have e : 4 * (1 - (8 / (|B| + 8) - 1)) / (1 + (8 / (|B| + 8) - 1)) = |B| + 4 := by
      field_simp
      ring
    rw [e]
    linarith [le_abs_self B]

/-- Witness of C5: the error at angle `0` is smaller than the error at angle
`pi / 2`. -/
theorem C5_error_strictly_increasing_unbounded_witness :
    4 * (1 - Real.cos 0) / (1 + Real.cos 0)
      < 4 * (1 - Real.cos (Real.pi / 2)) / (1 + Real.cos (Real.pi / 2)) :=
  (C5_error_strictly_increasing_unbounded.1 0 (Real.pi / 2) le_rfl
    (by positivity) (by linarith [Real.pi_pos])).2.2

/-- C6: for every rotation `R`, translation `t`, pixel, point3D and camera,
`CalculateSquaredReprojectionError` called with the rigid pose `(R, t)` returns the
same value as the matrix overload called with the 3x4 matrix `[R | t]`: the camera
space points agree and the dot product is commutative. -/
theorem C6_rigid_overload_eq_matrix_overload (point2D : Vector2d) (point3D : Vector3d)
    (pose : Rigid3d) (camera : Camera) :
    pose.apply point3D = pose.ToMatrix.mulVec point3D.homogeneous ∧
    (∀ M m : Vector3d, M.dot m = m.dot M) ∧
    CalculateSquaredReprojectionError point2D point3D pose camera =
      CalculateSquaredReprojectionErrorMat point2D point3D pose.ToMatrix camera := by
  have hp : pose.apply point3D = pose.ToMatrix.mulVec point3D.homogeneous :=
    Rigid3d.apply_eq_CameraSpacePoint pose point3D
  refine ⟨hp, Vector3d.dot_comm, ?_⟩
  unfold CalculateSquaredReprojectionError CalculateSquaredReprojectionErrorMat
  simp only
  congr 1
  funext theta
  congr 1
  funext phi
  rw [Vector3d.dot_comm, hp]
  rfl

/-- The angle of two rays after Eigen normalization is a finite value in `[0, pi]`:
the argument of `acos` lies in `[-1, 1]`. -/
theorem acos_dot_normalized_mem (a b : Vector3d) :
    ∃ r : ℝ, Double.acos (a.normalized.dot b.normalized) = Double.finite r ∧
      0 ≤ r ∧ r ≤ Real.pi := by
  have h := Vector3d.dot_mem_of_le_one (Vector3d.squaredNorm_normalized_le_one a)
    (Vector3d.squaredNorm_normalized_le_one b)
  refine ⟨Real.arccos (a.normalized.dot b.normalized), ?_, Real.arccos_nonneg _,
    Real.arccos_le_pi _⟩
  unfold Double.acos
  rw [if_pos h]

/-- C9, amended to exact arithmetic (every `double` read as the real number it denotes,
without rounding, overflow or underflow): for every 2D ray, point3D and pose (either representation),
`CalculateNormalizedAngularError` returns a value in `[0, pi]`; hence
`CalculateAngularError`, which returns
`CalculateNormalizedAngularError (camera.CamFromImg pixel) point3D pose`, also returns
a value in `[0, pi]` for every pixel and every camera pixel-to-ray function. -/
theorem C9_angular_error_mem_zero_pi (point2D : Vector2d) (point3D : Vector3d)
    (pose : Rigid3d) (P : Matrix3x4d) (camera : Camera) :
    (∃ r : ℝ, CalculateNormalizedAngularError point2D point3D pose = Double.finite r ∧
      0 ≤ r ∧ r ≤ Real.pi) ∧
    (∃ r : ℝ, CalculateNormalizedAngularErrorMat point2D point3D P = Double.finite r ∧
      0 ≤ r ∧ r ≤ Real.pi) ∧
    CalculateAngularError point2D point3D pose camera =
      CalculateNormalizedAngularError (camera.CamFromImg point2D) point3D pose ∧
    CalculateAngularErrorMat point2D point3D P camera =
      CalculateNormalizedAngularErrorMat (camera.CamFromImg point2D) point3D P ∧
    (∃ r : ℝ, CalculateAngularError point2D point3D pose camera = Double.finite r ∧
      0 ≤ r ∧ r ≤ Real.pi) ∧
    (∃ r : ℝ, CalculateAngularErrorMat point2D point3D P camera = Double.finite r ∧
      0 ≤ r ∧ r ≤ Real.pi) :=
  ⟨acos_dot_normalized_mem _ _, acos_dot_normalized_mem _ _, rfl, rfl,
    acos_dot_normalized_mem _ _, acos_dot_normalized_mem _ _⟩

/-- The normalized ray `(x, y, 1)` and the normalized point `lam * (x, y, 1)` have dot
product `lam / |lam|`. -/
theorem dot_normalized_scaled (x y lam : ℝ) (hl : lam ≠ 0) :
    ((⟨x, y, 1⟩ : Vector3d).normalized).dot
      ((⟨lam * x, lam * y, lam⟩ : Vector3d).normalized) = lam / |lam| := by
  have hs : 0 < x * x + y * y + 1 * 1 := by
    nlinarith [mul_self_nonneg x, mul_self_nonneg y]
  have hv : (⟨x, y, 1⟩ : Vector3d).squaredNorm = x * x + y * y + 1 * 1 := rfl
  have hw : (⟨lam * x, lam * y, lam⟩ : Vector3d).squaredNorm
      = lam ^ 2 * (x * x + y * y + 1 * 1) := by
    unfold Vector3d.squaredNorm; ring
  have hwpos : 0 < lam ^ 2 * (x * x + y * y + 1 * 1) :=
    mul_pos (by positivity) hs
  have hsq : Real.sqrt (lam ^ 2 * (x * x + y * y + 1 * 1))
      = |lam| * Real.sqrt (x * x + y * y + 1 * 1) := by
    rw [Real.sqrt_mul (sq_nonneg lam), Real.sqrt_sq_eq_abs]
  have hr : 0 < Real.sqrt (x * x + y * y + 1 * 1) := Real.sqrt_pos.mpr hs
  have hrr : Real.sqrt (x * x + y * y + 1 * 1) * Real.sqrt (x * x + y * y + 1 * 1)
      = x * x + y * y + 1 * 1 := Real.mul_self_sqrt hs.le
  have habs : 0 < |lam| := abs_pos.mpr hl
  unfold Vector3d.normalized
  simp only [hv, hw, hs, hwpos, if_true, hsq]
  unfold Vector3d.dot
  simp only
  rw [div_mul_div_comm, div_mul_div_comm, div_mul_div_comm, ← add_div, ← add_div,
    div_eq_div_iff (ne_of_gt (mul_pos hr (mul_pos habs hr))) (ne_of_gt habs)]
  have e : Real.sqrt (x * x + y * y + 1 * 1) * (|lam| * Real.sqrt (x * x + y * y + 1 * 1))
      = |lam| * (x * x + y * y + 1 * 1) := by
    rw [mul_left_comm, hrr]
  rw [e]
  ring

/-- C10, amended to exact arithmetic (every `double` read as the real number it denotes,
without rounding, overflow or underflow): for every 2D ray `(x, y)` and every pose and point3D whose camera-space image
is `lam * (x, y, 1)`, `CalculateNormalizedAngularError` returns exactly `0` when
`lam > 0` (identical rays after normalization) and exactly `pi` when `lam < 0`
(exactly opposite rays), in both pose overloads. -/
theorem C10_angular_error_of_scaled_ray (point2D : Vector2d) (point3D : Vector3d)
    (pose : Rigid3d) (P : Matrix3x4d) (lam : ℝ)
    (hpose : pose.apply point3D = ⟨lam * point2D.x, lam * point2D.y, lam⟩)
    (hP : CameraSpacePoint P point3D = ⟨lam * point2D.x, lam * point2D.y, lam⟩) :
    (0 < lam →
      CalculateNormalizedAngularError point2D point3D pose = Double.finite 0 ∧
      CalculateNormalizedAngularErrorMat point2D point3D P = Double.finite 0) ∧
    (lam < 0 →
      CalculateNormalizedAngularError point2D point3D pose = Double.finite Real.pi ∧
      CalculateNormalizedAngularErrorMat point2D point3D P = Double.finite Real.pi) := by
  have e1 : ∀ hl : lam ≠ 0, CalculateNormalizedAngularError point2D point3D pose
      = Double.acos (lam / |lam|) := by
    intro hl
    unfold CalculateNormalizedAngularError
    simp only [hpose, Vector2d.homogeneous]
    rw [dot_normalized_scaled _ _ _ hl]
  have e2 : ∀ hl : lam ≠ 0, CalculateNormalizedAngularErrorMat point2D point3D P
      = Double.acos (lam / |lam|) := by
    intro hl
    unfold CalculateNormalizedAngularErrorMat
    unfold CameraSpacePoint at hP
    simp only [hP, Vector2d.homogeneous]
    rw [dot_normalized_scaled _ _ _ hl]
  have a1 : Double.acos 1 = Double.finite 0 := by
    unfold Double.acos
    rw [if_pos ⟨by norm_num, le_rfl⟩, Real.arccos_one]
  have a2 : Double.acos (-1) = Double.finite Real.pi := by
    unfold Double.acos
    rw [if_pos ⟨le_rfl, by norm_num⟩, Real.arccos_neg_one]
  constructor
  · intro hl
    have hq : lam / |lam| = 1 := by rw [abs_of_pos hl]; exact div_self (ne_of_gt hl)
    rw [e1 (ne_of_gt hl), e2 (ne_of_gt hl), hq]
    exact ⟨a1, a1⟩
  · intro hl
    have hq : lam / |lam| = -1 := by
      rw [abs_of_neg hl, div_neg]; rw [div_self (ne_of_lt hl)]
    rw [e1 (ne_of_lt hl), e2 (ne_of_lt hl), hq]
    exact ⟨a2, a2⟩

/-- Witness of C10: under the identity pose the ray `(0, 0)` meets the point
`(0, 0, 3)` at angle `0` and the point `(0, 0, -3)` at angle `pi`. -/
theorem C10_angular_error_of_scaled_ray_witness :
    (CalculateNormalizedAngularError ⟨0, 0⟩ ⟨3 * 0, 3 * 0, 3⟩ Rigid3d.Identity
        = Double.finite 0 ∧
      CalculateNormalizedAngularErrorMat ⟨0, 0⟩ ⟨3 * 0, 3 * 0, 3⟩ IdentityMatrix3x4d
        = Double.finite 0) ∧
    (CalculateNormalizedAngularError ⟨0, 0⟩ ⟨(-3) * 0, (-3) * 0, -3⟩ Rigid3d.Identity
        = Double.finite Real.pi ∧
      CalculateNormalizedAngularErrorMat ⟨0, 0⟩ ⟨(-3) * 0, (-3) * 0, -3⟩
        IdentityMatrix3x4d = Double.finite Real.pi) :=
  ⟨(C10_angular_error_of_scaled_ray ⟨0, 0⟩ ⟨3 * 0, 3 * 0, 3⟩ Rigid3d.Identity
      IdentityMatrix3x4d 3 (Rigid3d.apply_identity _) (CameraSpacePoint_identity _)).1
      (by norm_num),
    (C10_angular_error_of_scaled_ray ⟨0, 0⟩ ⟨(-3) * 0, (-3) * 0, -3⟩ Rigid3d.Identity
      IdentityMatrix3x4d (-3) (Rigid3d.apply_identity _)
      (CameraSpacePoint_identity _)).2 (by norm_num)⟩

/-- The rigid overload of the normalized angular error is the `acos` of the dot product
of the normalized ray and the normalized camera-space point. -/
theorem CalculateNormalizedAngularError_eq_Mat (point2D : Vector2d) (point3D : Vector3d)
    (pose : Rigid3d) :
    CalculateNormalizedAngularError point2D point3D pose =
      CalculateNormalizedAngularErrorMat point2D point3D pose.ToMatrix := by
  unfold CalculateNormalizedAngularError CalculateNormalizedAngularErrorMat
  simp only
  rw [Rigid3d.apply_eq_CameraSpacePoint]
  rfl

/-- C11: the ray-angle computation of `CalculateNormalizedAngularError` is symmetric
under swapping its two rays: for all non-zero 3-vectors `a` and `b`,
`acos (normalize a . normalize b) = acos (normalize b . normalize a)`; concretely,
for all 2D rays `r` and `s` under the identity pose,
`NormalizedAngularError (r, (s.x, s.y, 1)) = NormalizedAngularError (s, (r.x, r.y, 1))`,
in both pose overloads. -/
theorem C11_normalized_angular_error_symmetric (a b : Vector3d) (r s : Vector2d) :
    (a ≠ ⟨0, 0, 0⟩ → b ≠ ⟨0, 0, 0⟩ →
      Double.acos (a.normalized.dot b.normalized)
        = Double.acos (b.normalized.dot a.normalized)) ∧
    CalculateNormalizedAngularError r ⟨s.x, s.y, 1⟩ Rigid3d.Identity
      = CalculateNormalizedAngularError s ⟨r.x, r.y, 1⟩ Rigid3d.Identity ∧
    CalculateNormalizedAngularErrorMat r ⟨s.x, s.y, 1⟩ IdentityMatrix3x4d
      = CalculateNormalizedAngularErrorMat s ⟨r.x, r.y, 1⟩ IdentityMatrix3x4d := by
  refine ⟨fun _ _ => by rw [Vector3d.dot_comm], ?_, ?_⟩
  · unfold CalculateNormalizedAngularError
    simp only [Rigid3d.apply_identity, Vector2d.homogeneous]
    rw [Vector3d.dot_comm]
  · have e : ∀ v : Vector3d, IdentityMatrix3x4d.mulVec v.homogeneous = v :=
      CameraSpacePoint_identity
    unfold CalculateNormalizedAngularErrorMat
    simp only [e, Vector2d.homogeneous]
    rw [Vector3d.dot_comm]

/-- Witness of C11: the vectors `(1, 0, 0)` and `(0, 2, 0)`, and the rays `(1, 2)` and
`(3, -1)`. -/
theorem C11_normalized_angular_error_symmetric_witness :
    CalculateNormalizedAngularError ⟨1, 2⟩ ⟨3, -1, 1⟩ Rigid3d.Identity
      = CalculateNormalizedAngularError ⟨3, -1⟩ ⟨1, 2, 1⟩ Rigid3d.Identity ∧
    Double.acos ((⟨1, 0, 0⟩ : Vector3d).normalized.dot (⟨0, 2, 0⟩ : Vector3d).normalized)
      = Double.acos ((⟨0, 2, 0⟩ : Vector3d).normalized.dot
          (⟨1, 0, 0⟩ : Vector3d).normalized) := by
  have h1 : (⟨1, 0, 0⟩ : Vector3d) ≠ ⟨0, 0, 0⟩ := by
    intro h
    have := congrArg Vector3d.x h
    simp at this
  have h2 : (⟨0, 2, 0⟩ : Vector3d) ≠ ⟨0, 0, 0⟩ := by
    intro h
    have := congrArg Vector3d.y h
    simp at this
  have h := C11_normalized_angular_error_symmetric ⟨1, 0, 0⟩ ⟨0, 2, 0⟩ ⟨1, 2⟩ ⟨3, -1⟩
  exact ⟨h.2.1, h.1 h1 h2⟩

/-- C12: for every rotation `R`, translation `t`, 2D ray and point3D,
`CalculateNormalizedAngularError` with the rigid pose `(R, t)` returns the same value
as the matrix overload with the 3x4 matrix `[R | t]`; consequently the two
`CalculateAngularError` overloads return the same value for the same pixel, point and
camera. -/
theorem C12_angular_error_overloads_agree (point2D : Vector2d) (point3D : Vector3d)
    (pose : Rigid3d) (camera : Camera) :
    CalculateNormalizedAngularError point2D point3D pose =
      CalculateNormalizedAngularErrorMat point2D point3D pose.ToMatrix ∧
    CalculateAngularError point2D point3D pose camera =
      CalculateAngularErrorMat point2D point3D pose.ToMatrix camera :=
  ⟨CalculateNormalizedAngularError_eq_Mat point2D point3D pose,
    CalculateNormalizedAngularError_eq_Mat (camera.CamFromImg point2D) point3D pose⟩

/-- The depth test depends on the camera-space point only through its norm. -/
theorem HasPointPositiveDepth_eq_of_norm_eq (P Q : Matrix3x4d) (X Y : Vector3d)
    (h : (CameraSpacePoint P X).norm = (CameraSpacePoint Q Y).norm) :
    HasPointPositiveDepth P X = HasPointPositiveDepth Q Y := by
  rw [Bool.eq_iff_iff, HasPointPositiveDepth_iff_distance, HasPointPositiveDepth_iff_distance,
    h]

/-- C13: `HasPointPositiveDepth` is invariant to the sign of the camera-axis (z)
component of the transformed point: for every pose matrix `P` and points `X`, `Y`
whose camera-space images differ only in the sign of their z component,
`HasPointPositiveDepth P X = HasPointPositiveDepth P Y`; in particular, with the
identity pose, the points `(0, 0, -5)` (behind the camera) and `(0, 0, 5)` (in front)
both yield true. -/
theorem C13_HasPointPositiveDepth_sign_invariant (P : Matrix3x4d) (X Y : Vector3d)
    (hx : (CameraSpacePoint P Y).x = (CameraSpacePoint P X).x)
    (hy : (CameraSpacePoint P Y).y = (CameraSpacePoint P X).y)
    (hz : (CameraSpacePoint P Y).z = -(CameraSpacePoint P X).z) :
    HasPointPositiveDepth P X = HasPointPositiveDepth P Y ∧
    HasPointPositiveDepth IdentityMatrix3x4d ⟨0, 0, -5⟩ = true ∧
    HasPointPositiveDepth IdentityMatrix3x4d ⟨0, 0, 5⟩ = true := by
  have hn : (CameraSpacePoint P X).norm = (CameraSpacePoint P Y).norm := by
    unfold Vector3d.norm Vector3d.squaredNorm
    rw [hx, hy, hz]
    congr 1
    ring
  have h5 : (⟨0, 0, 5⟩ : Vector3d).norm = 5 := Vector3d.norm_axis 5 (by norm_num)
  have hm5 : (⟨0, 0, -5⟩ : Vector3d).norm = 5 := by
    unfold Vector3d.norm Vector3d.squaredNorm
    rw [show (0 : ℝ) * 0 + 0 * 0 + -5 * -5 = 5 * 5 by norm_num]
    exact Real.sqrt_mul_self (by norm_num)
  refine ⟨HasPointPositiveDepth_eq_of_norm_eq P P X Y hn, ?_, ?_⟩
  · rw [HasPointPositiveDepth_iff_distance, CameraSpacePoint_identity, hm5]
    norm_num
  · rw [HasPointPositiveDepth_iff_distance, CameraSpacePoint_identity, h5]
    norm_num

/-- Witness of C13: the identity pose with `X = (1, 2, 5)` and `Y = (1, 2, -5)`. -/
theorem C13_HasPointPositiveDepth_sign_invariant_witness :
    HasPointPositiveDepth IdentityMatrix3x4d ⟨1, 2, 5⟩
      = HasPointPositiveDepth IdentityMatrix3x4d ⟨1, 2, -5⟩ :=
  (C13_HasPointPositiveDepth_sign_invariant IdentityMatrix3x4d ⟨1, 2, 5⟩ ⟨1, 2, -5⟩
    (by rw [CameraSpacePoint_identity, CameraSpacePoint_identity])
    (by rw [CameraSpacePoint_identity, CameraSpacePoint_identity])
    (by rw [CameraSpacePoint_identity, CameraSpacePoint_identity])).1

/-- The norm of the zero vector is zero. -/
theorem Vector3d.norm_zero : (⟨0, 0, 0⟩ : Vector3d).norm = 0 :=
  Vector3d.norm_axis 0 le_rfl

/-- The zero double is below `epsilon`. -/
theorem IEEE.zero_lt_epsilon : Binary64.lt (Binary64.finite 0) IEEE.epsilon = true := by
  decide!

/-- C14: in `HasPointPositiveDepth` the division `1 / distance` is reached only when
`distance ≥ epsilon > 0`: for every pose matrix and point the function returns a
boolean without ever dividing by zero, and it returns false, with no division, whenever
`distance < epsilon`, including a point exactly at the camera center. Stated on the
function instrumented with the divisors of the divisions it executes, in exact
arithmetic (`P`, `X`) and in double arithmetic (`Q`, `Y`). -/
theorem C14_HasPointPositiveDepth_no_division_by_zero (P : Matrix3x4d) (X : Vector3d)
    (Q : IEEE.Matrix3x4d) (Y : IEEE.Vector3d) :
    0 < epsilon ∧
    (HasPointPositiveDepthTraced P X).1 = HasPointPositiveDepth P X ∧
    (∀ d ∈ (HasPointPositiveDepthTraced P X).2,
      d = (CameraSpacePoint P X).norm ∧ epsilon ≤ d ∧ d ≠ 0) ∧
    ((CameraSpacePoint P X).norm < epsilon →
      HasPointPositiveDepthTraced P X = (false, [])) ∧
    (CameraSpacePoint P X = ⟨0, 0, 0⟩ → HasPointPositiveDepthTraced P X = (false, [])) ∧
    (¬ (CameraSpacePoint P X).norm < epsilon →
      (HasPointPositiveDepthTraced P X).2 = [(CameraSpacePoint P X).norm] ∧
      Double.div 1.0 (CameraSpacePoint P X).norm
        = Double.finite (1.0 / (CameraSpacePoint P X).norm)) ∧
    (IEEE.HasPointPositiveDepthTraced Q Y).1 = IEEE.HasPointPositiveDepth Q Y ∧
    (∀ d ∈ (IEEE.HasPointPositiveDepthTraced Q Y).2,
      d = (IEEE.CameraSpacePoint Q Y).norm ∧ Binary64.lt d IEEE.epsilon = false ∧
      d ≠ Binary64.finite 0) ∧
    (Binary64.lt (IEEE.CameraSpacePoint Q Y).norm IEEE.epsilon = true →
      IEEE.HasPointPositiveDepthTraced Q Y = (false, [])) := by
  have small : (CameraSpacePoint P X).norm < epsilon →
      HasPointPositiveDepthTraced P X = (false, []) := by
    intro h
    unfold HasPointPositiveDepthTraced
    simp only [head3_point_cam, h, if_true]
  have hQ : ((IEEE.Matrix4d.Identity.setBlock34 Q).mulVec Y.homogeneous).head3
      = IEEE.CameraSpacePoint Q Y := rfl
  refine ⟨epsilon_pos, ?_, ?_, small, ?_, ?_, ?_, ?_, ?_⟩
  · unfold HasPointPositiveDepthTraced HasPointPositiveDepth
    simp only [head3_point_cam]
    by_cases h : (CameraSpacePoint P X).norm < epsilon
    · simp only [h, if_true]
    · simp only [h, if_false]
  · intro d hd
    unfold HasPointPositiveDepthTraced at hd
    simp only [head3_point_cam] at hd
    by_cases h : (CameraSpacePoint P X).norm < epsilon
    · simp only [h, if_true, List.not_mem_nil] at hd
    · simp only [h, if_false, List.mem_singleton] at hd
      have hle : epsilon ≤ (CameraSpacePoint P X).norm := not_lt.mp h
      rw [hd]
      exact ⟨rfl, hle, ne_of_gt (lt_of_lt_of_le epsilon_pos hle)⟩
  · intro h
    apply small
    rw [h, Vector3d.norm_zero]
    exact epsilon_pos
  · intro h
    have hle : epsilon ≤ (CameraSpacePoint P X).norm := not_lt.mp h
    have hne : (CameraSpacePoint P X).norm ≠ 0 := ne_of_gt (lt_of_lt_of_le epsilon_pos hle)
    constructor
    · unfold HasPointPositiveDepthTraced
      simp only [head3_point_cam, h, if_false]
    · unfold Double.div
      rw [if_neg hne]
  · unfold IEEE.HasPointPositiveDepthTraced IEEE.HasPointPositiveDepth
    simp only [hQ]
    cases h : Binary64.lt (IEEE.CameraSpacePoint Q Y).norm IEEE.epsilon
    · simp
    · simp
  · intro d hd
    unfold IEEE.HasPointPositiveDepthTraced at hd
    simp only [hQ] at hd
    cases h : Binary64.lt (IEEE.CameraSpacePoint Q Y).norm IEEE.epsilon
    · rw [h] at hd
      simp only [Bool.false_eq_true, if_false, List.mem_singleton] at hd
      rw [hd]
      refine ⟨rfl, h, ?_⟩
      intro h0
      rw [h0, IEEE.zero_lt_epsilon] at h
      exact Bool.noConfusion h
    · rw [h] at hd
      simp only [if_true, List.not_mem_nil] at hd
  · intro h
    unfold IEEE.HasPointPositiveDepthTraced
    simp only [hQ, h, if_true]

/-- Witness of C14: under the identity pose the point at the camera center is rejected
without a division, and for the point `(0, 0, 5)` the only division has the divisor
`5`; in double arithmetic the same holds for the divisor of the point `(0, 0, 5)`. -/
theorem C14_HasPointPositiveDepth_no_division_by_zero_witness :
    HasPointPositiveDepthTraced IdentityMatrix3x4d ⟨0, 0, 0⟩ = (false, []) ∧
    (HasPointPositiveDepthTraced IdentityMatrix3x4d ⟨0, 0, 5⟩).2
      = [(CameraSpacePoint IdentityMatrix3x4d ⟨0, 0, 5⟩).norm] ∧
    (∀ d ∈ (IEEE.HasPointPositiveDepthTraced IEEE.IdentityMatrix3x4d
        ⟨Binary64.finite 0, Binary64.finite 0, Binary64.finite 5⟩).2,
      d ≠ Binary64.finite 0) := by
  have h5 : (CameraSpacePoint IdentityMatrix3x4d ⟨0, 0, 5⟩).norm = 5 := by
    rw [CameraSpacePoint_identity]; exact Vector3d.norm_axis 5 (by norm_num)
  have hbig : ¬ (CameraSpacePoint IdentityMatrix3x4d ⟨0, 0, 5⟩).norm < epsilon := by
    rw [h5, not_lt]
    exact le_of_lt (lt_trans epsilon_lt (by norm_num))
  have h := C14_HasPointPositiveDepth_no_division_by_zero IdentityMatrix3x4d ⟨0, 0, 0⟩
    IEEE.IdentityMatrix3x4d ⟨Binary64.finite 0, Binary64.finite 0, Binary64.finite 5⟩
  have h' := C14_HasPointPositiveDepth_no_division_by_zero IdentityMatrix3x4d ⟨0, 0, 5⟩
    IEEE.IdentityMatrix3x4d ⟨Binary64.finite 0, Binary64.finite 0, Binary64.finite 5⟩
  exact ⟨h.2.2.2.2.1 (CameraSpacePoint_identity _), (h'.2.2.2.2.2.1 hbig).1,
    fun d hd => (h.2.2.2.2.2.2.2.1 d hd).2.2⟩

/-- C15, amended to exact arithmetic (every `double` read as the real number it denotes,
without rounding, overflow or underflow): for every pixel `(u, v)` and every principal point with `cx ≠ 0` and
`cy ≠ 0`, the angles `theta = (u - cx)*pi/cx` and `phi = (v - cy)*pi/(2*cy)` are finite
and the observed direction `M = (cos phi * sin theta, sin phi, cos phi * cos theta)`
computed in `CalculateSquaredReprojectionError` has Euclidean norm exactly `1`, so the
dot product `M.m` with the normalized camera-space point lies in `[-1, 1]`, in both
overloads. -/
theorem C15_observed_direction_is_unit (point2D : Vector2d) (point3D : Vector3d)
    (pose : Rigid3d) (P : Matrix3x4d) (camera : Camera)
    (hcx : camera.PrincipalPointX ≠ 0) (hcy : camera.PrincipalPointY ≠ 0) :
    Double.div ((point2D.x - camera.PrincipalPointX) * Real.pi) camera.PrincipalPointX
      = Double.finite ((point2D.x - camera.PrincipalPointX) * Real.pi
          / camera.PrincipalPointX) ∧
    Double.div ((point2D.y - camera.PrincipalPointY) * Real.pi)
        (2 * camera.PrincipalPointY)
      = Double.finite ((point2D.y - camera.PrincipalPointY) * Real.pi
          / (2 * camera.PrincipalPointY)) ∧
    (ObservedDirection point2D camera.PrincipalPointX camera.PrincipalPointY).norm = 1 ∧
    (CalculateSquaredReprojectionError point2D point3D pose camera =
        SquaredErrorFromDot
          ((ObservedDirection point2D camera.PrincipalPointX camera.PrincipalPointY).dot
            (pose.apply point3D).normalized) ∧
      -1 ≤ (ObservedDirection point2D camera.PrincipalPointX camera.PrincipalPointY).dot
            (pose.apply point3D).normalized ∧
      (ObservedDirection point2D camera.PrincipalPointX camera.PrincipalPointY).dot
            (pose.apply point3D).normalized ≤ 1) ∧
    (CalculateSquaredReprojectionErrorMat point2D point3D P camera =
        SquaredErrorFromDot
          ((CameraSpacePoint P point3D).normalized.dot
            (ObservedDirection point2D camera.PrincipalPointX camera.PrincipalPointY)) ∧
      -1 ≤ (CameraSpacePoint P point3D).normalized.dot
            (ObservedDirection point2D camera.PrincipalPointX camera.PrincipalPointY) ∧
      (CameraSpacePoint P point3D).normalized.dot
            (ObservedDirection point2D camera.PrincipalPointX camera.PrincipalPointY)
        ≤ 1) := by
  have h2 : (2 : ℝ) * camera.PrincipalPointY ≠ 0 := mul_ne_zero two_ne_zero hcy
  have hM := ObservedDirection_squaredNorm point2D camera.PrincipalPointX
    camera.PrincipalPointY
  have b1 := Vector3d.dot_mem_of_le_one hM.le
    (Vector3d.squaredNorm_normalized_le_one (pose.apply point3D))
  have b2 := Vector3d.dot_mem_of_le_one
    (Vector3d.squaredNorm_normalized_le_one (CameraSpacePoint P point3D)) hM.le
  refine ⟨?_, ?_, ?_, ⟨?_, b1.1, b1.2⟩, ?_, b2.1, b2.2⟩
  · unfold Double.div; rw [if_neg hcx]
  · unfold Double.div; rw [if_neg h2]
  · unfold Vector3d.norm; rw [hM]; exact Real.sqrt_one
  · exact CalculateSquaredReprojectionError_eq point2D point3D pose camera hcx hcy
  · exact CalculateSquaredReprojectionErrorMat_eq point2D point3D P camera hcx hcy

/-- Witness of C15: principal point `(320, 240)` and the pixel `(320, 240)`. -/
theorem C15_observed_direction_is_unit_witness :
    (ObservedDirection ⟨320, 240⟩ exampleCamera.PrincipalPointX
      exampleCamera.PrincipalPointY).norm = 1 :=
  (C15_observed_direction_is_unit ⟨320, 240⟩ ⟨0, 0, 1⟩ Rigid3d.Identity IdentityMatrix3x4d
    exampleCamera (by simp [exampleCamera]) (by simp [exampleCamera])).2.2.1

/-- C16: for every 2D ray and every pose and point3D whose camera-space image is
non-zero, the argument passed to `acos` in `CalculateNormalizedAngularError` (the dot
product of the two normalized rays) lies in `[-1, 1]`, so in exact arithmetic the
arccos domain is never violated even though the code does not clamp: the result is
the finite arc cosine, in both overloads. -/
theorem C16_acos_argument_in_domain (point2D : Vector2d) (point3D : Vector3d)
    (pose : Rigid3d) (P : Matrix3x4d)
    (hpose : pose.apply point3D ≠ ⟨0, 0, 0⟩)
    (hP : CameraSpacePoint P point3D ≠ ⟨0, 0, 0⟩) :
    (-1 ≤ point2D.homogeneous.normalized.dot (pose.apply point3D).normalized ∧
      point2D.homogeneous.normalized.dot (pose.apply point3D).normalized ≤ 1 ∧
      CalculateNormalizedAngularError point2D point3D pose =
        Double.acos (point2D.homogeneous.normalized.dot (pose.apply point3D).normalized) ∧
      CalculateNormalizedAngularError point2D point3D pose =
        Double.finite (Real.arccos
          (point2D.homogeneous.normalized.dot (pose.apply point3D).normalized))) ∧
    (-1 ≤ point2D.homogeneous.normalized.dot (CameraSpacePoint P point3D).normalized ∧
      point2D.homogeneous.normalized.dot (CameraSpacePoint P point3D).normalized ≤ 1 ∧
      CalculateNormalizedAngularErrorMat point2D point3D P =
        Double.acos
          (point2D.homogeneous.normalized.dot (CameraSpacePoint P point3D).normalized) ∧
      CalculateNormalizedAngularErrorMat point2D point3D P =
        Double.finite (Real.arccos
          (point2D.homogeneous.normalized.dot
            (CameraSpacePoint P point3D).normalized))) := by
  have m1 := Vector3d.squaredNorm_normalized (Vector3d.squaredNorm_pos hpose)
  have m2 := Vector3d.squaredNorm_normalized (Vector3d.squaredNorm_pos hP)
  have b1 := Vector3d.dot_mem_of_le_one
    (Vector3d.squaredNorm_normalized_le_one point2D.homogeneous) m1.le
  have b2 := Vector3d.dot_mem_of_le_one
    (Vector3d.squaredNorm_normalized_le_one point2D.homogeneous) m2.le
  refine ⟨⟨b1.1, b1.2, rfl, ?_⟩, b2.1, b2.2, rfl, ?_⟩
  · unfold CalculateNormalizedAngularError Double.acos
    simp only
    rw [if_pos b1]
  · unfold CalculateNormalizedAngularErrorMat Double.acos
    unfold CameraSpacePoint at b2
    simp only
    rw [if_pos b2]
    rfl

/-- Witness of C16: the ray `(1, 2)`, the identity pose and the point `(0, 0, 1)`. -/
theorem C16_acos_argument_in_domain_witness :
    CalculateNormalizedAngularError ⟨1, 2⟩ ⟨0, 0, 1⟩ Rigid3d.Identity =
      Double.finite (Real.arccos
        ((⟨1, 2⟩ : Vector2d).homogeneous.normalized.dot
          (Rigid3d.Identity.apply ⟨0, 0, 1⟩).normalized)) := by
  have hne : (⟨0, 0, 1⟩ : Vector3d) ≠ ⟨0, 0, 0⟩ := by
    intro h
    have := congrArg Vector3d.z h
    simp at this
  exact (C16_acos_argument_in_domain ⟨1, 2⟩ ⟨0, 0, 1⟩ Rigid3d.Identity IdentityMatrix3x4d
    (by rw [Rigid3d.apply_identity]; exact hne)
    (by rw [CameraSpacePoint_identity]; exact hne)).1.2.2.2

/-- For a square matrix, `R^T R = I` gives `R R^T = I`: the transpose of an orthogonal
matrix is orthogonal. -/
theorem Matrix3d.IsOrthogonal.transpose {R : Matrix3d} (h : R.IsOrthogonal) :
    R.transpose.IsOrthogonal := by
  unfold Matrix3d.IsOrthogonal at h
  have e00 := congrArg (fun m : Matrix3d => m.row0.x) h
  have e01 := congrArg (fun m : Matrix3d => m.row0.y) h
  have e02 := congrArg (fun m : Matrix3d => m.row0.z) h
  have e10 := congrArg (fun m : Matrix3d => m.row1.x) h
  have e11 := congrArg (fun m : Matrix3d => m.row1.y) h
  have e12 := congrArg (fun m : Matrix3d => m.row1.z) h
  have e20 := congrArg (fun m : Matrix3d => m.row2.x) h
  have e21 := congrArg (fun m : Matrix3d => m.row2.y) h
  have e22 := congrArg (fun m : Matrix3d => m.row2.z) h
  simp only [Matrix3d.mul, Matrix3d.transpose, Matrix3d.Identity, Vector3d.dot] at e00 e01 e02
  simp only [Matrix3d.mul, Matrix3d.transpose, Matrix3d.Identity, Vector3d.dot] at e10 e11 e12
  simp only [Matrix3d.mul, Matrix3d.transpose, Matrix3d.Identity, Vector3d.dot] at e20 e21 e22
  have hm : R.toMatrix.transpose * R.toMatrix = 1 := by
    ext i j
    fin_cases i <;> fin_cases j <;>
      simp [Matrix3d.toMatrix, Matrix.mul_apply, Fin.sum_univ_three] <;> assumption
  have hm2 : R.toMatrix * R.toMatrix.transpose = 1 := Matrix.mul_eq_one_comm.mp hm
  have f : ∀ i j : Fin 3, (R.toMatrix * R.toMatrix.transpose) i j
      = (1 : Matrix (Fin 3) (Fin 3) ℝ) i j := fun i j => by rw [hm2]
  have f00 := f 0 0
  have f01 := f 0 1
  have f02 := f 0 2
  have f10 := f 1 0
  have f11 := f 1 1
  have f12 := f 1 2
  have f20 := f 2 0
  have f21 := f 2 1
  have f22 := f 2 2
  simp [Matrix3d.toMatrix, Matrix.mul_apply, Fin.sum_univ_three] at f00 f01 f02
  simp [Matrix3d.toMatrix, Matrix.mul_apply, Fin.sum_univ_three] at f10 f11 f12
  simp [Matrix3d.toMatrix, Matrix.mul_apply, Fin.sum_univ_three] at f20 f21 f22
  unfold Matrix3d.IsOrthogonal
  simp only [Matrix3d.mul, Matrix3d.transpose, Matrix3d.Identity, Vector3d.dot]
  congr 1
  · congr 1
  · congr 1
  · congr 1

/-- The camera-space point of the scaled matrix is the scaled camera-space point. -/
theorem CameraSpacePoint_smul (s : ℝ) (P : Matrix3x4d) (X : Vector3d) :
    CameraSpacePoint (Matrix3x4d.smul s P) X = Vector3d.smul s (CameraSpacePoint P X) := by
  ext <;> simp [CameraSpacePoint, Matrix3x4d.smul, Matrix3x4d.mulVec, Vector4d.smul,
    Vector4d.dot, Vector3d.smul, Vector3d.homogeneous] <;> ring

/-- Scaling by a positive factor does not change the normalized vector. -/
theorem Vector3d.normalized_smul {s : ℝ} (hs : 0 < s) (v : Vector3d) :
    (Vector3d.smul s v).normalized = v.normalized := by
  have hw : (Vector3d.smul s v).squaredNorm = s ^ 2 * v.squaredNorm := by
    unfold Vector3d.smul Vector3d.squaredNorm; ring
  by_cases h : 0 < v.squaredNorm
  · have hwpos : 0 < s ^ 2 * v.squaredNorm := mul_pos (by positivity) h
    have hsq : Real.sqrt (s ^ 2 * v.squaredNorm) = s * Real.sqrt v.squaredNorm := by
      rw [Real.sqrt_mul (sq_nonneg s), Real.sqrt_sq hs.le]
    have hr : Real.sqrt v.squaredNorm ≠ 0 := ne_of_gt (Real.sqrt_pos.mpr h)
    unfold Vector3d.normalized
    simp only [hw, hwpos, h, if_true, hsq]
    simp only [Vector3d.smul]
    ext
    · exact mul_div_mul_left _ _ (ne_of_gt hs)
    · exact mul_div_mul_left _ _ (ne_of_gt hs)
    · exact mul_div_mul_left _ _ (ne_of_gt hs)
  · have h0 : v.squaredNorm = 0 := le_antisymm (not_lt.mp h) (Vector3d.squaredNorm_nonneg v)
    have hv := Vector3d.squaredNorm_eq_zero h0
    have hsv : Vector3d.smul s v = v := by
      rw [hv]; ext <;> simp [Vector3d.smul]
    rw [hsv]

/-- The matrix overload of the reprojection error depends on the pose and the point
only through the normalized camera-space point. -/
theorem CalculateSquaredReprojectionErrorMat_congr (point2D : Vector2d)
    (X Y : Vector3d) (P Q : Matrix3x4d) (camera : Camera)
    (h : (CameraSpacePoint P X).normalized = (CameraSpacePoint Q Y).normalized) :
    CalculateSquaredReprojectionErrorMat point2D X P camera =
      CalculateSquaredReprojectionErrorMat point2D Y Q camera := by
  unfold CameraSpacePoint Matrix3x4d.mulVec at h
  unfold CalculateSquaredReprojectionErrorMat
  simp only [h]

/-- The matrix overload of the normalized angular error depends on the pose and the
point only through the normalized camera-space point. -/
theorem CalculateNormalizedAngularErrorMat_congr (point2D : Vector2d)
    (X Y : Vector3d) (P Q : Matrix3x4d)
    (h : (CameraSpacePoint P X).normalized = (CameraSpacePoint Q Y).normalized) :
    CalculateNormalizedAngularErrorMat point2D X P =
      CalculateNormalizedAngularErrorMat point2D Y Q := by
  unfold CameraSpacePoint at h
  unfold CalculateNormalizedAngularErrorMat
  simp only [h]

/-- C19, amended to exact arithmetic (every `double` read as the real number it denotes,
without rounding, overflow or underflow): both error metrics depend on the camera-space point only through its
direction: for every positive scalar `s`, every 3x4 matrix `P`, pixel or ray, camera
and point3D with `P * [X; 1] ≠ 0`, the matrix overloads of
`CalculateSquaredReprojectionError` and `CalculateNormalizedAngularError` return the
same value for `s * P` as for `P`. -/
theorem C19_error_metrics_scale_invariant (s : ℝ) (P : Matrix3x4d) (point2D : Vector2d)
    (point3D : Vector3d) (camera : Camera) (hs : 0 < s)
    (hP : CameraSpacePoint P point3D ≠ ⟨0, 0, 0⟩) :
    CameraSpacePoint (Matrix3x4d.smul s P) point3D ≠ ⟨0, 0, 0⟩ ∧
    (CameraSpacePoint (Matrix3x4d.smul s P) point3D).normalized
      = (CameraSpacePoint P point3D).normalized ∧
    CalculateSquaredReprojectionErrorMat point2D point3D (Matrix3x4d.smul s P) camera
      = CalculateSquaredReprojectionErrorMat point2D point3D P camera ∧
    CalculateNormalizedAngularErrorMat point2D point3D (Matrix3x4d.smul s P)
      = CalculateNormalizedAngularErrorMat point2D point3D P := by
  have hn : (CameraSpacePoint (Matrix3x4d.smul s P) point3D).normalized
      = (CameraSpacePoint P point3D).normalized := by
    rw [CameraSpacePoint_smul, Vector3d.normalized_smul hs]
  refine ⟨?_, hn, CalculateSquaredReprojectionErrorMat_congr _ _ _ _ _ _ hn,
    CalculateNormalizedAngularErrorMat_congr _ _ _ _ _ hn⟩
  intro h0
  apply hP
  rw [CameraSpacePoint_smul] at h0
  have hx := congrArg Vector3d.x h0
  have hy := congrArg Vector3d.y h0
  have hz := congrArg Vector3d.z h0
  simp only [Vector3d.smul] at hx hy hz
  ext
  · exact (mul_eq_zero.mp hx).resolve_left (ne_of_gt hs)
  · exact (mul_eq_zero.mp hy).resolve_left (ne_of_gt hs)
  · exact (mul_eq_zero.mp hz).resolve_left (ne_of_gt hs)

/-- Witness of C19: the identity pose scaled by `3`, the pixel or ray `(100, 50)`, the
point `(1, 2, 2)` and the camera with principal point `(320, 240)`. -/
theorem C19_error_metrics_scale_invariant_witness :
    CalculateSquaredReprojectionErrorMat ⟨100, 50⟩ ⟨1, 2, 2⟩
        (Matrix3x4d.smul 3 IdentityMatrix3x4d) exampleCamera
      = CalculateSquaredReprojectionErrorMat ⟨100, 50⟩ ⟨1, 2, 2⟩ IdentityMatrix3x4d
          exampleCamera ∧
    CalculateNormalizedAngularErrorMat ⟨100, 50⟩ ⟨1, 2, 2⟩
        (Matrix3x4d.smul 3 IdentityMatrix3x4d)
      = CalculateNormalizedAngularErrorMat ⟨100, 50⟩ ⟨1, 2, 2⟩ IdentityMatrix3x4d := by
  have hne : CameraSpacePoint IdentityMatrix3x4d ⟨1, 2, 2⟩ ≠ ⟨0, 0, 0⟩ := by
    rw [CameraSpacePoint_identity]
    intro h
    have := congrArg Vector3d.x h
    simp at this
  exact (C19_error_metrics_scale_invariant 3 IdentityMatrix3x4d ⟨100, 50⟩ ⟨1, 2, 2⟩
    exampleCamera (by norm_num) hne).2.2

/-- The matrix overload in double arithmetic is the return expression at the dot product
of the normalized camera-space point and the observed direction. -/
theorem IEEE.double_CalculateSquaredReprojectionErrorMat_eq (libm : Libm) (point2D : IEEE.Vector2d)
    (point3D : IEEE.Vector3d) (P : IEEE.Matrix3x4d) (camera : IEEE.Camera) :
    IEEE.CalculateSquaredReprojectionErrorMat libm point2D point3D P camera =
      IEEE.SquaredErrorFromDot
        ((IEEE.CameraSpacePoint P point3D).normalized.dot
          (IEEE.ObservedDirection libm point2D camera.PrincipalPointX
            camera.PrincipalPointY)) := rfl

/-- The matrix overload of the normalized angular error in double arithmetic is `acos` of
the dot product of the two normalized rays. -/
theorem IEEE.double_CalculateNormalizedAngularErrorMat_eq (libm : Libm) (point2D : IEEE.Vector2d)
    (point3D : IEEE.Vector3d) (P : IEEE.Matrix3x4d) :
    IEEE.CalculateNormalizedAngularErrorMat libm point2D point3D P =
      libm.acos (point2D.homogeneous.normalized.dot
        (IEEE.CameraSpacePoint P point3D).normalized) := rfl

theorem Binary64.round_zero : Binary64.round 0 = Binary64.finite 0 := by decide!

theorem Binary64.round_one : Binary64.round 1 = Binary64.finite 1 := by decide!

/-- The library functions exist: constant `sin = 0`, `cos = 1`, `acos = 0` meet every
requirement of `Libm`, so statements over all libraries are not vacuous. -/
theorem Libm.nonempty : Nonempty Libm :=
  ⟨⟨fun _ => 0, fun _ => 1, fun _ => 0, fun _ => Binary64.round_zero,
    fun _ => Binary64.round_one, fun _ => Binary64.round_zero, rfl, rfl⟩⟩

/-- The observed direction of a pixel whose `theta` overflows: `sin` and `cos` of an
infinity are `NaN`. -/
theorem IEEE.double_ObservedDirection_overflow (libm : Libm) :
    IEEE.ObservedDirection libm ⟨Binary64.finite (pow2 1023), Binary64.finite 240⟩
      (Binary64.finite 320) (Binary64.finite 240)
      = ⟨Binary64.nan, Binary64.finite 0, Binary64.nan⟩ := by
  have ht : Binary64.div (Binary64.mul (Binary64.sub (Binary64.finite (pow2 1023))
      (Binary64.finite 320)) IEEE.M_PI) (Binary64.finite 320) = Binary64.posInf := by decide!
  have hp : Binary64.div (Binary64.mul (Binary64.sub (Binary64.finite 240)
      (Binary64.finite 240)) IEEE.M_PI) (Binary64.mul (Binary64.finite 2) (Binary64.finite 240))
      = Binary64.finite 0 := by decide!
  unfold IEEE.ObservedDirection
  simp only [ht, hp]
  simp only [Libm.sin, Libm.cos, libm.sin_zero, libm.cos_zero]
  rfl

/-- C2, counterexample in double arithmetic: principal point `(320, 240)`, pixel
`(2^1023, 240)`, pose `[I | 0]` and point `(0, 0, 1)` (camera-space image `(0, 0, 1)`,
non-zero). The product `(u - cx) * pi` overflows, `theta` is `+inf`, `sin` and `cos`
of it are `NaN`, and the function returns `NaN`, for which `0 <= result` is false. -/
theorem C2_overflow_counterexample :
    Binary64.div (Binary64.mul (Binary64.sub (Binary64.finite (pow2 1023))
      (Binary64.finite 320)) IEEE.M_PI) (Binary64.finite 320) = Binary64.posInf ∧
    IEEE.CameraSpacePoint IEEE.IdentityMatrix3x4d
      ⟨Binary64.finite 0, Binary64.finite 0, Binary64.finite 1⟩
      = ⟨Binary64.finite 0, Binary64.finite 0, Binary64.finite 1⟩ ∧
    (fun libm : Libm => IEEE.CalculateSquaredReprojectionErrorMat libm
      ⟨Binary64.finite (pow2 1023), Binary64.finite 240⟩
      ⟨Binary64.finite 0, Binary64.finite 0, Binary64.finite 1⟩
      IEEE.IdentityMatrix3x4d IEEE.exampleCamera) = (fun _ => Binary64.nan) ∧
    Binary64.le (Binary64.finite 0) Binary64.nan = false := by
  refine ⟨by decide!, by decide!, ?_, rfl⟩
  funext libm
  rw [IEEE.double_CalculateSquaredReprojectionErrorMat_eq]
  change IEEE.SquaredErrorFromDot
    ((IEEE.CameraSpacePoint IEEE.IdentityMatrix3x4d
      ⟨Binary64.finite 0, Binary64.finite 0, Binary64.finite 1⟩).normalized.dot
      (IEEE.ObservedDirection libm ⟨Binary64.finite (pow2 1023), Binary64.finite 240⟩
        (Binary64.finite 320) (Binary64.finite 240))) = Binary64.nan
  rw [IEEE.double_ObservedDirection_overflow]
  decide!

/-- The function `acos` of the library returns `NaN` above `1`. -/
theorem Libm.acos_of_one_lt (libm : Libm) {q : ℚ} (h : 1 < q) :
    libm.acos (Binary64.finite q) = Binary64.nan := by
  show (if -1 ≤ q ∧ q ≤ 1 then Binary64.finite (libm.acosQ q) else Binary64.nan)
    = Binary64.nan
  rw [if_neg]
  intro hq
  exact absurd hq.2 (not_le.mpr h)

/-- The function `acos` of the library returns `NaN` below `-1`. -/
theorem Libm.acos_of_lt_neg_one (libm : Libm) {q : ℚ} (h : q < -1) :
    libm.acos (Binary64.finite q) = Binary64.nan := by
  show (if -1 ≤ q ∧ q ≤ 1 then Binary64.finite (libm.acosQ q) else Binary64.nan)
    = Binary64.nan
  rw [if_neg]
  intro hq
  exact absurd hq.1 (not_le.mpr h)

/-- C9, counterexample in double arithmetic: the ray `(5, 0)`, the pose `[I | 0]` and
the point `(5, 0, 1)`. Both rays normalize to the same vector, whose dot product with
itself rounds to `1 + 2^-52 > 1`; the unclamped `std::acos` returns `NaN`, which is no
value in `[0, pi]`. The same holds for `CalculateAngularError` with a camera whose
pixel-to-ray function returns `(5, 0)`. -/
theorem C9_rounding_counterexample :
    IEEE.Vector3d.dot (IEEE.Vector2d.homogeneous ⟨Binary64.finite 5, Binary64.finite 0⟩).normalized
      (IEEE.CameraSpacePoint IEEE.IdentityMatrix3x4d
        ⟨Binary64.finite 5, Binary64.finite 0, Binary64.finite 1⟩).normalized
      = Binary64.finite (4503599627370497 / 4503599627370496) ∧
    (1 : ℚ) < 4503599627370497 / 4503599627370496 ∧
    (fun libm : Libm => IEEE.CalculateNormalizedAngularErrorMat libm
      ⟨Binary64.finite 5, Binary64.finite 0⟩
      ⟨Binary64.finite 5, Binary64.finite 0, Binary64.finite 1⟩ IEEE.IdentityMatrix3x4d)
      = (fun _ => Binary64.nan) ∧
    (fun libm : Libm => IEEE.CalculateAngularErrorMat libm
      ⟨Binary64.finite 5, Binary64.finite 0⟩
      ⟨Binary64.finite 5, Binary64.finite 0, Binary64.finite 1⟩ IEEE.IdentityMatrix3x4d
      IEEE.exampleCamera) = (fun _ => Binary64.nan) ∧
    (∀ r : ℚ, Binary64.nan ≠ Binary64.finite r) := by
  have hd : IEEE.Vector3d.dot
      (IEEE.Vector2d.homogeneous ⟨Binary64.finite 5, Binary64.finite 0⟩).normalized
      (IEEE.CameraSpacePoint IEEE.IdentityMatrix3x4d
        ⟨Binary64.finite 5, Binary64.finite 0, Binary64.finite 1⟩).normalized
      = Binary64.finite (4503599627370497 / 4503599627370496) := by decide!
  have hlt : (1 : ℚ) < 4503599627370497 / 4503599627370496 := by norm_num
  have key : ∀ libm : Libm, IEEE.CalculateNormalizedAngularErrorMat libm
      ⟨Binary64.finite 5, Binary64.finite 0⟩
      ⟨Binary64.finite 5, Binary64.finite 0, Binary64.finite 1⟩ IEEE.IdentityMatrix3x4d
      = Binary64.nan := by
    intro libm
    rw [IEEE.double_CalculateNormalizedAngularErrorMat_eq, hd]
    exact libm.acos_of_one_lt hlt
  refine ⟨hd, hlt, funext key, funext key, ?_⟩
  intro r h
  exact Binary64.noConfusion h

/-- C10, counterexample in double arithmetic: the ray `(5, 0)` under the pose `[I | 0]`.
The point `(10, 0, 2) = 2 * (5, 0, 1)` gives the dot product `1 + 2^-52` and the point
`(-5, 0, -1) = -1 * (5, 0, 1)` gives `-(1 + 2^-52)`; in both cases `std::acos` returns
`NaN`, not `0` and not `pi`. -/
theorem C10_rounding_counterexample :
    IEEE.CameraSpacePoint IEEE.IdentityMatrix3x4d
      ⟨Binary64.finite 10, Binary64.finite 0, Binary64.finite 2⟩
      = ⟨Binary64.mul (Binary64.finite 2) (Binary64.finite 5),
         Binary64.mul (Binary64.finite 2) (Binary64.finite 0), Binary64.finite 2⟩ ∧
    IEEE.CameraSpacePoint IEEE.IdentityMatrix3x4d
      ⟨Binary64.finite (-5), Binary64.finite 0, Binary64.finite (-1)⟩
      = ⟨Binary64.mul (Binary64.finite (-1)) (Binary64.finite 5),
         Binary64.mul (Binary64.finite (-1)) (Binary64.finite 0), Binary64.finite (-1)⟩ ∧
    (fun libm : Libm => IEEE.CalculateNormalizedAngularErrorMat libm
      ⟨Binary64.finite 5, Binary64.finite 0⟩
      ⟨Binary64.finite 10, Binary64.finite 0, Binary64.finite 2⟩ IEEE.IdentityMatrix3x4d)
      = (fun _ => Binary64.nan) ∧
    (fun libm : Libm => IEEE.CalculateNormalizedAngularErrorMat libm
      ⟨Binary64.finite 5, Binary64.finite 0⟩
      ⟨Binary64.finite (-5), Binary64.finite 0, Binary64.finite (-1)⟩
      IEEE.IdentityMatrix3x4d) = (fun _ => Binary64.nan) ∧
    (∀ r : ℚ, Binary64.nan ≠ Binary64.finite r) := by
  have hd1 : IEEE.Vector3d.dot
      (IEEE.Vector2d.homogeneous ⟨Binary64.finite 5, Binary64.finite 0⟩).normalized
      (IEEE.CameraSpacePoint IEEE.IdentityMatrix3x4d
        ⟨Binary64.finite 10, Binary64.finite 0, Binary64.finite 2⟩).normalized
      = Binary64.finite (4503599627370497 / 4503599627370496) := by decide!
  have hd2 : IEEE.Vector3d.dot
      (IEEE.Vector2d.homogeneous ⟨Binary64.finite 5, Binary64.finite 0⟩).normalized
      (IEEE.CameraSpacePoint IEEE.IdentityMatrix3x4d
        ⟨Binary64.finite (-5), Binary64.finite 0, Binary64.finite (-1)⟩).normalized
      = Binary64.finite (-(4503599627370497 / 4503599627370496)) := by decide!
  refine ⟨by decide!, by decide!, ?_, ?_, ?_⟩
  · funext libm
    rw [IEEE.double_CalculateNormalizedAngularErrorMat_eq, hd1]
    exact libm.acos_of_one_lt (by norm_num)
  · funext libm
    rw [IEEE.double_CalculateNormalizedAngularErrorMat_eq, hd2]
    exact libm.acos_of_lt_neg_one (by norm_num)
  · intro r h
    exact Binary64.noConfusion h

/-- C15, counterexample in double arithmetic: principal point `(320, 240)` and pixel
`(2^1023, 240)`. The product `(u - cx) * pi` overflows, `theta` is `+inf`, and the
observed direction is `M = (NaN, 0, NaN)`: its norm is `NaN`, not `1`, and its dot
product with the predicted direction `(0, 0, 1)` is `NaN`, outside `[-1, 1]`. -/
theorem C15_overflow_counterexample :
    (fun libm : Libm => IEEE.ObservedDirection libm
      ⟨Binary64.finite (pow2 1023), Binary64.finite 240⟩ (Binary64.finite 320)
      (Binary64.finite 240))
      = (fun _ => ⟨Binary64.nan, Binary64.finite 0, Binary64.nan⟩) ∧
    IEEE.Vector3d.norm ⟨Binary64.nan, Binary64.finite 0, Binary64.nan⟩ = Binary64.nan ∧
    Binary64.nan ≠ Binary64.finite 1 ∧
    IEEE.Vector3d.dot ⟨Binary64.finite 0, Binary64.finite 0, Binary64.finite 1⟩
      ⟨Binary64.nan, Binary64.finite 0, Binary64.nan⟩ = Binary64.nan ∧
    Binary64.le (Binary64.finite (-1)) Binary64.nan = false ∧
    Binary64.le Binary64.nan (Binary64.finite 1) = false :=
  ⟨funext IEEE.double_ObservedDirection_overflow, by decide!, by decide!, by decide!, rfl, rfl⟩

/-- The function `acos` of the library is finite on `[-1, 1]`. -/
theorem Libm.acos_of_mem (libm : Libm) {q : ℚ} (h1 : -1 ≤ q) (h2 : q ≤ 1) :
    libm.acos (Binary64.finite q) = Binary64.finite (libm.acosQ q) := by
  show (if -1 ≤ q ∧ q ≤ 1 then Binary64.finite (libm.acosQ q) else Binary64.nan)
    = Binary64.finite (libm.acosQ q)
  rw [if_pos ⟨h1, h2⟩]

/-- C19, counterexample in double arithmetic: the ray `(5, 0)`, the point `(5, 0, 1)`,
the matrix `P = [I | 0]` (camera-space image `(5, 0, 1)`, non-zero) and the scalar
`s = 3`. For `P` the dot product of the normalized rays rounds to `1 + 2^-52` and
`CalculateNormalizedAngularError` returns `NaN`; for `3 * P` it rounds to `1` and the
function returns the finite value `acos(1)`. The two values differ. -/
theorem C19_rounding_counterexample :
    Binary64.lt (Binary64.finite 0) (Binary64.finite 3) = true ∧
    IEEE.CameraSpacePoint IEEE.IdentityMatrix3x4d
      ⟨Binary64.finite 5, Binary64.finite 0, Binary64.finite 1⟩
      = ⟨Binary64.finite 5, Binary64.finite 0, Binary64.finite 1⟩ ∧
    IEEE.CameraSpacePoint (IEEE.Matrix3x4d.smul (Binary64.finite 3) IEEE.IdentityMatrix3x4d)
      ⟨Binary64.finite 5, Binary64.finite 0, Binary64.finite 1⟩
      = ⟨Binary64.finite 15, Binary64.finite 0, Binary64.finite 3⟩ ∧
    (fun libm : Libm => IEEE.CalculateNormalizedAngularErrorMat libm
      ⟨Binary64.finite 5, Binary64.finite 0⟩
      ⟨Binary64.finite 5, Binary64.finite 0, Binary64.finite 1⟩ IEEE.IdentityMatrix3x4d)
      = (fun _ => Binary64.nan) ∧
    (fun libm : Libm => IEEE.CalculateNormalizedAngularErrorMat libm
      ⟨Binary64.finite 5, Binary64.finite 0⟩
      ⟨Binary64.finite 5, Binary64.finite 0, Binary64.finite 1⟩
      (IEEE.Matrix3x4d.smul (Binary64.finite 3) IEEE.IdentityMatrix3x4d))
      = (fun libm => Binary64.finite (libm.acosQ 1)) ∧
    ¬ ∃ libm : Libm, IEEE.CalculateNormalizedAngularErrorMat libm
      ⟨Binary64.finite 5, Binary64.finite 0⟩
      ⟨Binary64.finite 5, Binary64.finite 0, Binary64.finite 1⟩
      (IEEE.Matrix3x4d.smul (Binary64.finite 3) IEEE.IdentityMatrix3x4d)
      = IEEE.CalculateNormalizedAngularErrorMat libm
        ⟨Binary64.finite 5, Binary64.finite 0⟩
        ⟨Binary64.finite 5, Binary64.finite 0, Binary64.finite 1⟩ IEEE.IdentityMatrix3x4d := by
  have hd1 : IEEE.Vector3d.dot
      (IEEE.Vector2d.homogeneous ⟨Binary64.finite 5, Binary64.finite 0⟩).normalized
      (IEEE.CameraSpacePoint IEEE.IdentityMatrix3x4d
        ⟨Binary64.finite 5, Binary64.finite 0, Binary64.finite 1⟩).normalized
      = Binary64.finite (4503599627370497 / 4503599627370496) := by decide!
  have hd3 : IEEE.Vector3d.dot
      (IEEE.Vector2d.homogeneous ⟨Binary64.finite 5, Binary64.finite 0⟩).normalized
      (IEEE.CameraSpacePoint
        (IEEE.Matrix3x4d.smul (Binary64.finite 3) IEEE.IdentityMatrix3x4d)
        ⟨Binary64.finite 5, Binary64.finite 0, Binary64.finite 1⟩).normalized
      = Binary64.finite 1 := by decide!
  have k1 : ∀ libm : Libm, IEEE.CalculateNormalizedAngularErrorMat libm
      ⟨Binary64.finite 5, Binary64.finite 0⟩
      ⟨Binary64.finite 5, Binary64.finite 0, Binary64.finite 1⟩ IEEE.IdentityMatrix3x4d
      = Binary64.nan := by
    intro libm
    rw [IEEE.double_CalculateNormalizedAngularErrorMat_eq, hd1]
    exact libm.acos_of_one_lt (by norm_num)
  have k3 : ∀ libm : Libm, IEEE.CalculateNormalizedAngularErrorMat libm
      ⟨Binary64.finite 5, Binary64.finite 0⟩
      ⟨Binary64.finite 5, Binary64.finite 0, Binary64.finite 1⟩
      (IEEE.Matrix3x4d.smul (Binary64.finite 3) IEEE.IdentityMatrix3x4d)
      = Binary64.finite (libm.acosQ 1) := by
    intro libm
    rw [IEEE.double_CalculateNormalizedAngularErrorMat_eq, hd3]
    exact libm.acos_of_mem (by norm_num) le_rfl
  refine ⟨by decide!, by decide!, by decide!, funext k1, funext k3, ?_⟩
  rintro ⟨libm, h⟩
  rw [k1, k3] at h
  exact Binary64.noConfusion h

end Colmap

end
